import Mathlib

set_option maxHeartbeats 1000000

/-!
Verification development for the Manus task-orchestration core.

The definitions below are a shallow embedding of the TypeScript sources:
- `src/core/agent/executor.ts` (ExecutorAgent: executeTask, executeTaskSteps,
  executeTaskStep, storePlanSteps, handleExecutionError,
  handleStepExecutionError, analyzeStepForAgentSelection),
- `src/app/api/tasks/[id]/cancel` POST route (external cancellation),
- the Planner (createPlan / parsePlanFromLLMResponse),
- CodeExecutionAgent (analyzeStepForActions, resolveActionDependencies,
  the per-action execution loop of executeStep),
- WebBrowsingAgent (analyzeStepToActions, extractSearchQuery, extractTopic),
- GeneralPurposeAgent (analyzeStepForActions with its JSON-array parsing),
- SpecializedAgentRegistry (selectAgentForStep) and the agents'
  canHandleStep keyword predicates.

Database writes are modelled as updates to an explicit state record; the
AgentLog audit sink is observational and is modelled only where a claim
mentions it (the per-action warning log of the runner).  Timestamps are
modelled as booleans recording whether the corresponding column was set.
-/

namespace Manus

/-! ### Basic string helpers (JS semantics) -/

/-- JS whitespace class `\s` restricted to the ASCII range (the Unicode
space classes cannot occur in the embedded tests and are omitted). -/
def jsWS (c : Char) : Bool :=
  c = ' ' || c = '\t' || c = '\n' || c = '\r' || c = '\x0b' || c = '\x0c'

/-- JS `.` (dot) matches every char except the line terminators. -/
def jsDot (c : Char) : Bool :=
  !(c = '\n' || c = '\r' || c = Char.ofNat 0x2028 || c = Char.ofNat 0x2029)

/-- Word char class `[a-zA-Z0-9_]` of JS regexes. -/
def isWordChar (c : Char) : Bool := c.isAlphanum || c = '_'

/-- Prefix test on char lists. -/
def listPre : List Char → List Char → Bool
  | [], _ => true
  | _ :: _, [] => false
  | p :: ps, c :: cs => p = c && listPre ps cs

/-- Substring containment on char lists (JS `String.prototype.includes`). -/
def listContains : List Char → List Char → Bool
  | [], pat => pat.isEmpty
  | c :: t, pat => listPre pat (c :: t) || listContains t pat

/-- JS `a.includes(b)` on strings. -/
def strContains (s pat : String) : Bool := listContains s.toList pat.toList

/-- JS `String.prototype.trim` (ASCII whitespace). -/
def jsTrim (s : String) : String :=
  String.mk (((s.toList.dropWhile jsWS).reverse.dropWhile jsWS).reverse)

/-- JS `String.prototype.toLowerCase` (ASCII). -/
def jsToLower (s : String) : String := String.mk (s.toList.map Char.toLower)

/-- List update at an index (Prisma `update where id` on the step rows,
where the row is addressed by its position in the ordered step list). -/
def updateAt : List α → Nat → (α → α) → List α
  | [], _, _ => []
  | a :: t, 0, f => f a :: t
  | a :: t, n+1, f => a :: updateAt t n f

/-! ### Task and step state machine (executor.ts and the cancel route) -/

/-- Task.status enum (prisma schema / §4.1). -/
inductive TaskStatus where
  | pending | planning | inProgress | resolved | closed | failed
deriving DecidableEq, Repr

/-- TaskStep.status enum. -/
inductive StepStatus where
  | pending | inProgress | completed | failed
deriving DecidableEq, Repr

/-- One persisted TaskStep row: its status and whether `startedAt` /
`completedAt` have been written (timestamps modelled as set-flags). -/
structure StepRec where
  status : StepStatus
  hasStartedAt : Bool
  hasCompletedAt : Bool
deriving DecidableEq, Repr

/-- A freshly inserted step row (`storePlanSteps`: status PENDING,
no timestamps). -/
def pendingRec : StepRec := ⟨.pending, false, false⟩

/-- What `agent.executeStep(step)` does, as observed by the executor:
either it returns an `AgentExecutionResult` (whose `success` flag the
executor ignores) or it throws. -/
inductive HandlerOutcome where
  | ok (success : Bool)
  | exc (msg : String)
deriving DecidableEq, Repr

/-- Whether the handler returned normally. -/
def HandlerOutcome.isOk : HandlerOutcome → Bool
  | .ok _ => true
  | .exc _ => false

/-- When the external cancellation request (POST /api/tasks/[id]/cancel)
commits, relative to the executor's step loop: either just before the
loop body for step `i` begins, or while step `i`'s handler is running
(after its IN_PROGRESS write, before the executor's completion write). -/
inductive CancelPoint where
  | before (i : Nat)
  | during (i : Nat)
deriving DecidableEq, Repr

/-- The persisted state the executor and the cancel route read and write:
the task row's status (with the full sequence of statuses ever written,
in order) and the ordered step rows. -/
structure ExecState where
  taskStatus : TaskStatus
  taskTrace : List TaskStatus
  steps : List StepRec
deriving DecidableEq, Repr

/-- `updateTaskStatus`: unconditional write of the task's status. -/
def setTask (s : ExecState) (t : TaskStatus) : ExecState :=
  { s with taskStatus := t, taskTrace := s.taskTrace ++ [t] }

/-- Cancellable states checked by the cancel route
(`const cancellableStates = ['PLANNING', 'IN_PROGRESS']`). -/
def cancellable : TaskStatus → Bool
  | .planning => true
  | .inProgress => true
  | _ => false

/-- The cancel route's `updateMany` on steps: every IN_PROGRESS step is
forced to FAILED with a completion timestamp; other steps untouched. -/
def cancelStepFix (st : StepRec) : StepRec :=
  if st.status = .inProgress then { st with status := .failed, hasCompletedAt := true } else st

/-- POST /api/tasks/[id]/cancel: if the task is in a cancellable state,
set it to FAILED and force every IN_PROGRESS step to FAILED; otherwise
the route rejects with 400 and changes nothing. -/
def applyCancel (s : ExecState) : ExecState :=
  if cancellable s.taskStatus then
    { taskStatus := .failed,
      taskTrace := s.taskTrace ++ [.failed],
      steps := s.steps.map cancelStepFix }
  else s

/-- `executeTaskStep`'s IN_PROGRESS write for step `i` (status plus
`startedAt`). -/
def startStep (s : ExecState) (i : Nat) : ExecState :=
  { s with steps := updateAt s.steps i (fun st => { st with status := .inProgress, hasStartedAt := true }) }

/-- `executeTaskStep`'s COMPLETED write for step `i` (status plus
`completedAt`). -/
def completeStep (s : ExecState) (i : Nat) : ExecState :=
  { s with steps := updateAt s.steps i (fun st => { st with status := .completed, hasCompletedAt := true }) }

/-- `handleStepExecutionError`'s FAILED write for step `i` (status plus
`completedAt`). -/
def failStepAt (s : ExecState) (i : Nat) : ExecState :=
  { s with steps := updateAt s.steps i (fun st => { st with status := .failed, hasCompletedAt := true }) }

/-- The state after the cancellation (if it commits around step `i`) and
the executor's IN_PROGRESS write for step `i`, just before the handler's
outcome is observed: a `before i` cancellation commits first, then the
IN_PROGRESS write happens, then a `during i` cancellation commits. -/
def iterMid (cancel : Option CancelPoint) (i : Nat) (s : ExecState) : ExecState :=
  if cancel = some (.during i) then
    applyCancel (startStep (if cancel = some (.before i) then applyCancel s else s) i)
  else startStep (if cancel = some (.before i) then applyCancel s else s) i

/-- `executeTaskSteps`' loop body, iterated over the remaining handler
outcomes with `i` the current step index.  Mirrors executor.ts:75-86:
run `executeTaskStep` (IN_PROGRESS write, handler, COMPLETED write on
return / FAILED write and re-raise on throw), then re-read the task and
break if it is FAILED.  The boolean result records whether an exception
propagated out of the loop.  A pending external cancellation commits at
the point described by `cancel`. -/
def stepLoop (cancel : Option CancelPoint) : List HandlerOutcome → Nat → ExecState → ExecState × Bool
  | [], _, s => (s, false)
  | o :: rest, i, s =>
    let s3 := iterMid cancel i s
    match o with
    | .exc _ => (failStepAt s3 i, true)
    | .ok _ =>
      let s4 := completeStep s3 i
      if s4.taskStatus = .failed then (s4, false)
      else stepLoop cancel rest (i+1) s4

/-- `executeTask` (executor.ts:31-64): PLANNING write, plan creation and
`storePlanSteps` (delete-then-insert of PENDING rows, one per planned
step), IN_PROGRESS write, the step loop, then — when no exception
propagated — an unconditional RESOLVED write, and a FAILED write via
`handleExecutionError` when one did.  The planner and the handlers are
abstracted into one `HandlerOutcome` per planned step. -/
def executeTask (outcomes : List HandlerOutcome) (cancel : Option CancelPoint) : ExecState :=
  let s0 : ExecState := { taskStatus := .pending, taskTrace := [.pending], steps := [] }
  let s1 := setTask s0 .planning
  let s2 := { s1 with steps := List.replicate outcomes.length pendingRec }
  let s3 := setTask s2 .inProgress
  let r := stepLoop cancel outcomes 0 s3
  if r.2 then setTask r.1 .failed else setTask r.1 .resolved

/-! ### Planner (planner.ts: createPlan / parsePlanFromLLMResponse) -/

/-- One parsed plan step.  The optional `estimatedTimeSeconds` /
`requiredTools` fields of the source's `PlanStep` are scanned from
continuation lines but never affect the step count or the description,
and no claim mentions them, so they are not modelled. -/
structure PlanStep where
  description : String
deriving DecidableEq, Repr

/-- The line matcher for the step regex `^\s*(\d+)[.)\]]\s+(.+)$`
(planner.ts:75), returning capture group 2 when the line matches.
Greedy matching with backtracking: `\s*` then `\d+` then one of
`.`/`)`/`]` are deterministic (disjoint char classes); for `\s+(.+)$`
the whitespace run gives back characters until `.+` can cover the
non-empty remainder (`.` does not match line terminators). -/
def stepLineMatch (line : String) : Option String :=
  let cs1 := line.toList.dropWhile jsWS
  let ds := cs1.takeWhile Char.isDigit
  if ds.isEmpty then none
  else
    match cs1.drop ds.length with
    | [] => none
    | p :: cs3 =>
      if p = '.' || p = ')' || p = ']' then
        let w := cs3.takeWhile jsWS
        if w.isEmpty then none
        else
          let g := cs3.drop w.length
          if g.isEmpty then
            if 2 ≤ cs3.length && jsDot (cs3.getLastD ' ') then
              some (String.mk [cs3.getLastD ' '])
            else none
          else if g.all jsDot then some (String.mk g) else none
      else none

/-- Append the current step, if any, to the accumulator
(`planSteps.push(currentStep)`). -/
def pushCur (acc : List PlanStep) : Option PlanStep → List PlanStep
  | some c => acc ++ [c]
  | none => acc

/-- The parser's line loop (planner.ts:79-144): a matching line closes
the current step and opens a new one from capture group 2 (trimmed);
a non-matching, non-blank line is appended to the current step's
description; the last open step is pushed at the end. -/
def parseLines : List String → List PlanStep → Option PlanStep → List PlanStep
  | [], acc, cur => pushCur acc cur
  | l :: ls, acc, cur =>
    match stepLineMatch l with
    | some g => parseLines ls (pushCur acc cur) (some ⟨jsTrim g⟩)
    | none =>
      match cur with
      | some c =>
        if jsTrim l = "" then parseLines ls acc (some c)
        else parseLines ls acc (some ⟨c.description ++ " " ++ jsTrim l⟩)
      | none => parseLines ls acc none

/-- JS `response.split('\n')`, structurally (keeps empty segments). -/
def splitLinesAux : List Char → List Char → List String
  | [], cur => [String.mk cur.reverse]
  | c :: t, cur =>
    if c = '\n' then String.mk cur.reverse :: splitLinesAux t []
    else splitLinesAux t (c :: cur)

/-- The lines of a response. -/
def splitLines (s : String) : List String := splitLinesAux s.toList []

/-- `parsePlanFromLLMResponse`: split on newlines and run the line loop. -/
def parsePlanFromLLMResponse (response : String) : List PlanStep :=
  parseLines (splitLines response) [] none

/-- `Planner.createPlan`, as a function of the text-generation
collaborator's response (the prompt construction and the LLM call are
external; the returned plan is exactly the parse of the response). -/
def createPlan (response : String) : List PlanStep :=
  parsePlanFromLLMResponse response

/-- Number of lines of the response that match the step regex. -/
def numberedLineCount (response : String) : Nat :=
  ((splitLines response).filter (fun l => (stepLineMatch l).isSome)).length

/-- A stored TaskStep row as created by `storePlanSteps`. -/
structure StoredStep where
  stepNumber : Nat
  description : String
  status : StepStatus
deriving DecidableEq, Repr

/-- `storePlanSteps`' insertion loop (executor.ts:162-171), starting
from index `i`: row `i` gets stepNumber `i + 1` and status PENDING. -/
def storePlanStepsFrom : Nat → List PlanStep → List StoredStep
  | _, [] => []
  | i, p :: ps => ⟨i + 1, p.description, .pending⟩ :: storePlanStepsFrom (i + 1) ps

/-- `storePlanSteps`: delete any prior rows, then insert one PENDING row
per plan step, numbered from 1. -/
def storePlanSteps (plan : List PlanStep) : List StoredStep :=
  storePlanStepsFrom 0 plan

/-- The list `a, a+1, ..., a+n-1` (used to state the contiguous
numbering property). -/
def consecutiveFrom : Nat → Nat → List Nat
  | _, 0 => []
  | a, n+1 => a :: consecutiveFrom (a+1) n

/-! ### Actions and the dependency resolver
(code-execution-agent.ts: analyzeStepForActions / resolveActionDependencies) -/

/-- A parameter value of an action object: a string literal, a list of
strings (the `args` / `criteria` arrays), the `undefined` value, or the
structured Reference `{resultFrom, property?}` that
`resolveActionDependencies` writes in place of a sentinel string. -/
inductive PValue where
  | str (s : String)
  | strList (xs : List String)
  | undef
  | ref (resultFrom : Nat) (property : Option String)
deriving DecidableEq, Repr

/-- An action object, as the JS object it is: an association list of
field name to value (the `type` tag is an ordinary string field, which
matters because the resolver iterates every field). -/
abbrev JObj := List (String × PValue)

/-- JS property read `a[key]` (`undefined` when the key is absent is
represented as `none`). -/
def jlookup : JObj → String → Option PValue
  | [], _ => none
  | (k, v) :: t, key => if k = key then some v else jlookup t key

/-- The whole-result sentinel string literal of the source. -/
def sentinelWhole : String := "$\x7bprevious_result\x7d"

/-- The leading characters of the property-form sentinel. -/
def sentinelPre : List Char := "$\x7bprevious_result.".toList

/-- First match of `/\$\{previous_result\.([a-zA-Z0-9_]+)\}/` in a char
list, returning the captured property name.  At each start position the
literal prefix, then a maximal `[a-zA-Z0-9_]+` run, then `}` must match
(shorter runs cannot be followed by `}`, so greediness is exact). -/
def findPropSentinel : List Char → Option String
  | [] => none
  | c :: t =>
    if listPre sentinelPre (c :: t) then
      let after := (c :: t).drop sentinelPre.length
      let run := after.takeWhile isWordChar
      let rest := after.drop run.length
      if !run.isEmpty && rest.head? = some '\x7d' then some (String.mk run)
      else findPropSentinel t
    else findPropSentinel t

/-- String form of `findPropSentinel`. -/
def findPropSentinelS (s : String) : Option String := findPropSentinel s.toList

/-- The per-field rewrite of `resolveActionDependencies` for an action at
index `i ≥ 1`: a string field containing the property-form sentinel
becomes `{resultFrom: i-1, property}`; a string field equal to the
whole-result sentinel becomes `{resultFrom: i-1}`; everything else is
untouched. -/
def resolveParamValue (i : Nat) : PValue → PValue
  | .str s =>
    match findPropSentinelS s with
    | some p => .ref (i - 1) (some p)
    | none => if s = sentinelWhole then .ref (i - 1) none else .str s
  | v => v

/-- The resolver's treatment of the action at absolute index `i`
(the source loop starts at `i = 1`, so index 0 is untouched). -/
def resolveObjAt (i : Nat) (a : JObj) : JObj :=
  if i = 0 then a else a.map (fun kv => (kv.1, resolveParamValue i kv.2))

/-- The resolver's single linear pass, from absolute index `n`. -/
def resolveFrom : Nat → List JObj → List JObj
  | _, [] => []
  | i, a :: rest => resolveObjAt i a :: resolveFrom (i+1) rest

/-- `CodeExecutionAgent.resolveActionDependencies`
(code-execution-agent.ts:434-459). -/
def resolveActionDependencies (actions : List JObj) : List JObj :=
  resolveFrom 0 actions

/-- Whether an action object contains no Reference values (the raw lists
produced by the decomposers satisfy this). -/
def refFree (a : JObj) : Bool :=
  a.all (fun kv => match kv.2 with | .ref _ _ => false | _ => true)

/-- Whether a parameter value is a string (the only kind the resolver
can rewrite: its loop tests `typeof action[key] === 'string'`). -/
def isStringParam : PValue → Bool
  | .str _ => true
  | _ => false

/-! #### CodeExecutionAgent.analyzeStepForActions -/

/-- The property-form sentinel the decomposer emits for the generated
code. -/
def sentinelPropCode : String := "$\x7bprevious_result.code\x7d"

/-- The compound sentinel `previous_result.code || previous_result`
emitted by the optimize/explain blocks.  Because of the ` || ` infix it
matches neither resolver pattern and stays a literal. -/
def sentinelEither : String := "$\x7bprevious_result.code || previous_result\x7d"

/-- The language-detection chain (code-execution-agent.ts:167-183),
applied to the lower-cased description. -/
def detectLanguage (d : String) : String :=
  if strContains d "javascript" || strContains d "js" then "javascript"
  else if strContains d "typescript" || strContains d "ts" then "typescript"
  else if strContains d "python" || strContains d "py" then "python"
  else if strContains d "bash" || strContains d "shell" then "bash"
  else if strContains d "r" then "r"
  else if strContains d "ruby" || strContains d "rb" then "ruby"
  else if strContains d "php" then "php"
  else "python"

/-- File extension chosen by the save/load blocks for a language. -/
def extFor (language : String) : String :=
  if language = "python" then "py"
  else if language = "javascript" then "js"
  else if language = "typescript" then "ts"
  else if language = "bash" then "sh"
  else if language = "r" then "r"
  else if language = "ruby" then "rb"
  else if language = "php" then "php"
  else "txt"

/-- The field value of `type` of the last pushed action, if any. -/
def lastActionType (acts : List JObj) : Option PValue :=
  match acts.getLast? with
  | some la => jlookup la "type"
  | none => none

/-- The heuristic blocks of `analyzeStepForActions`
(code-execution-agent.ts:162-425) before the empty-list default:
generation, execution, save, load, optimize, explain, each appending to
the accumulated list exactly as the source pushes. -/
def codeActionsRaw (desc : String) (now : Nat) : List JObj :=
  let d := jsToLower desc
  let language := detectLanguage d
  let a1 : List JObj :=
    if strContains d "create" || strContains d "write" || strContains d "generate" || strContains d "develop" then
      [[("type", .str "generate_code"), ("problem", .str desc), ("language", .str language)]]
    else []
  let a2 : List JObj := a1 ++
    (if strContains d "execute" || strContains d "run" || strContains d "evaluate" then
      (if lastActionType a1 = some (.str "generate_code") then
        [[("type", .str "execute_code"), ("code", .str sentinelPropCode), ("language", .str language), ("args", .strList [])]]
      else
        [[("type", .str "execute_code"), ("code", .str "print(\"Hello World\")"), ("language", .str language), ("args", .strList [])]])
    else [])
  let a3 : List JObj := a2 ++
    (if strContains d "save" || strContains d "write to file" || strContains d "create file" then
      (let path := "/tmp/manus-sandbox/code/script_" ++ toString now ++ "." ++ extFor language
       match a2.getLast? with
       | some la =>
         if jlookup la "type" = some (.str "generate_code") then
           [[("type", .str "save_code"), ("code", .str sentinelPropCode), ("path", .str path), ("language", .str language)]]
         else if jlookup la "type" = some (.str "execute_code") then
           [[("type", .str "save_code"), ("code", (jlookup la "code").getD .undef), ("path", .str path), ("language", .str language)]]
         else []
       | none =>
         [[("type", .str "save_code"), ("code", .str "# Generated code\nprint(\"Hello World\")"), ("path", .str path), ("language", .str language)]])
    else [])
  let a4 : List JObj := a3 ++
    (if strContains d "load" || strContains d "read file" || strContains d "open file" then
      [[("type", .str "load_code"), ("path", .str ("/tmp/manus-sandbox/code/script." ++ extFor language))]]
    else [])
  let a5 : List JObj := a4 ++
    (if strContains d "optimize" || strContains d "improve" || strContains d "refactor" || strContains d "clean" then
      (let criteria :=
        (if strContains d "performance" || strContains d "speed" then ["performance"] else []) ++
        (if strContains d "memory" || strContains d "resource" then ["memory_usage"] else []) ++
        (if strContains d "readability" || strContains d "maintainability" then ["readability"] else []) ++
        (if strContains d "security" then ["security"] else [])
       let criteria := if criteria.isEmpty then ["performance", "readability"] else criteria
       match a4.getLast? with
       | some la =>
         if jlookup la "type" = some (.str "load_code") || jlookup la "type" = some (.str "generate_code") then
           [[("type", .str "optimize_code"), ("code", .str sentinelEither), ("language", .str language), ("criteria", .strList criteria)]]
         else []
       | none =>
         [[("type", .str "optimize_code"), ("code", .str "# Code to optimize\nprint(\"Hello World\")"), ("language", .str language), ("criteria", .strList criteria)]])
    else [])
  let a6 : List JObj := a5 ++
    (if strContains d "explain" || strContains d "understand" || strContains d "document" || strContains d "comment" then
      (match a5.getLast? with
       | some la =>
         if jlookup la "type" = some (.str "load_code") || jlookup la "type" = some (.str "generate_code") || jlookup la "type" = some (.str "optimize_code") then
           [[("type", .str "explain_code"), ("code", .str sentinelEither), ("language", .str language)]]
         else []
       | none =>
         [[("type", .str "explain_code"), ("code", .str "# Code to explain\nprint(\"Hello World\")"), ("language", .str language)]])
    else [])
  a6

/-- The default pair pushed when no heuristic fired
(code-execution-agent.ts:411-425). -/
def codeDefaultPair (desc language : String) : List JObj :=
  [[("type", .str "generate_code"), ("problem", .str desc), ("language", .str language)],
   [("type", .str "execute_code"), ("code", .str sentinelPropCode), ("language", .str language), ("args", .strList [])]]

/-- `CodeExecutionAgent.analyzeStepForActions`: the heuristic blocks,
the default pair when nothing matched, then the resolver pass (the
source itself ends with `return this.resolveActionDependencies(actions)`).
`now` stands for `Date.now()` used in the save path. -/
def codeAnalyzeActions (desc : String) (now : Nat) : List JObj :=
  let acts := codeActionsRaw desc now
  let acts := if acts.isEmpty then codeDefaultPair desc (detectLanguage (jsToLower desc)) else acts
  resolveActionDependencies acts

/-! ### The per-action execution loop of `CodeExecutionAgent.executeStep`
(code-execution-agent.ts:40-105).  The WebBrowsingAgent's and
GeneralPurposeAgent's loops have the same shape: open a ToolUsage
record, try the action, close the record with the success flag, push the
output on success, log a warning and continue on failure. -/

/-- The observable outputs of one run of the action loop. -/
structure RunOut where
  /-- outputs of the successful actions, in order (`results.push(result)`). -/
  results : List PValue
  /-- one ToolUsage record per attempted action: the serialized action
  (`command`), whether the record was closed (`endedAt` written), and its
  success flag. -/
  usages : List (JObj × Bool × Bool)
  /-- the operations actually invoked, with the parameter values passed
  exactly as they appear in the action object (no substitution happens
  anywhere in the source). -/
  calls : List (String × List (Option PValue))
  /-- indices of the failed actions, for which `logWarning` ran. -/
  warns : List Nat
deriving DecidableEq, Repr

/-- The `switch (action.type)` of executeStep: which private operation is
invoked and with which raw parameter values.  An unknown type throws
before any call (`throw new Error('Unknown code action type')`),
modelled as `none`. -/
def invocationOf (a : JObj) : Option (String × List (Option PValue)) :=
  match jlookup a "type" with
  | some (.str t) =>
    if t = "generate_code" then some ("generateCode", [jlookup a "problem", jlookup a "language"])
    else if t = "execute_code" then some ("executeCode", [jlookup a "code", jlookup a "language", jlookup a "args"])
    else if t = "save_code" then some ("saveCode", [jlookup a "code", jlookup a "path", jlookup a "language"])
    else if t = "load_code" then some ("loadCode", [jlookup a "path"])
    else if t = "optimize_code" then some ("optimizeCode", [jlookup a "code", jlookup a "language", jlookup a "criteria"])
    else if t = "explain_code" then some ("explainCode", [jlookup a "code", jlookup a "language"])
    else none
  | _ => none

/-- The action loop, from action index `i`, with the external tool's
behaviour for each action given by `tool` (ok with an output, or a
thrown error).  Per action: ToolUsage opened; on an unknown type the
switch throws before any call, the catch closes the record as failed and
logs; otherwise the operation is invoked with the raw parameter values
and the record is closed with the outcome; the loop always continues to
the next action. -/
def runActions : List JObj → Nat → (Nat → Except String PValue) → RunOut
  | [], _, _ => ⟨[], [], [], []⟩
  | a :: rest, i, tool =>
    match invocationOf a with
    | none =>
      let r := runActions rest (i+1) tool
      ⟨r.results, (a, true, false) :: r.usages, r.calls, i :: r.warns⟩
    | some (op, args) =>
      match tool i with
      | .ok v =>
        let r := runActions rest (i+1) tool
        ⟨v :: r.results, (a, true, true) :: r.usages, (op, args) :: r.calls, r.warns⟩
      | .error _ =>
        let r := runActions rest (i+1) tool
        ⟨r.results, (a, true, false) :: r.usages, (op, args) :: r.calls, i :: r.warns⟩

/-- Declarative success flag of action `m` (list position) when the loop
starts at absolute index `i0`. -/
def actionSuccess (acts : List JObj) (i0 : Nat) (tool : Nat → Except String PValue) (m : Nat) : Bool :=
  match acts[m]? with
  | some a => (invocationOf a).isSome &&
      (match tool (i0 + m) with | .ok _ => true | .error _ => false)
  | none => false

/-- Declarative output of action `m`: `some` exactly when the action's
operation was invoked and succeeded. -/
def actionOutput (acts : List JObj) (i0 : Nat) (tool : Nat → Except String PValue) (m : Nat) : Option PValue :=
  match acts[m]? with
  | some a =>
    if (invocationOf a).isSome then
      (match tool (i0 + m) with | .ok v => some v | .error _ => none)
    else none
  | none => none

/-- Declarative failure index of action `m` (for the warning log). -/
def actionFailIdx (acts : List JObj) (i0 : Nat) (tool : Nat → Except String PValue) (m : Nat) : Option Nat :=
  match acts[m]? with
  | some a =>
    if (invocationOf a).isSome &&
        (match tool (i0 + m) with | .ok _ => true | .error _ => false) then none
    else some (i0 + m)
  | none => none

/-! ### WebBrowsingAgent.analyzeStepToActions (web-browsing-agent source) -/

/-- One attempt of `/https?:\/\/[^\s]+/` at the current position:
the literal scheme (greedy `s` first), then a non-empty maximal run of
non-whitespace characters.  Returns the match and the rest. -/
def tryUrlAt (cs : List Char) : Option (List Char × List Char) :=
  let scheme :=
    if listPre "https://".toList cs then some 8
    else if listPre "http://".toList cs then some 7
    else none
  match scheme with
  | none => none
  | some n =>
    let after := cs.drop n
    let run := after.takeWhile (fun c => !jsWS c)
    if run.isEmpty then none
    else some (cs.take n ++ run, after.drop run.length)

/-- The global scan of `description.match(urlRegex)`: non-overlapping
matches, resuming after each match.  `fuel` bounds the recursion and is
instantiated with the string length, which strictly dominates the number
of scan positions. -/
def urlScanF : Nat → List Char → List String
  | 0, _ => []
  | _, [] => []
  | fuel+1, c :: t =>
    match tryUrlAt (c :: t) with
    | some (u, rest) => String.mk u :: urlScanF fuel rest
    | none => urlScanF fuel t

/-- All URLs in the (lower-cased) description. -/
def extractUrls (d : String) : List String := urlScanF d.length d.toList

/-- The two quote characters of the search regex. -/
def isQuoteChar (c : Char) : Bool := c = '"' || c = Char.ofNat 39

/-- The `["']?([^"']+)["']?` tail of the search regex at `r`: an optional
opening quote (greedy, given back if the group would be empty), then a
non-empty maximal run of non-quote characters. -/
def tryQuoteGroup (r : List Char) : Option (List Char) :=
  match r with
  | [] => none
  | c :: t =>
    if isQuoteChar c then
      let g := t.takeWhile (fun x => !isQuoteChar x)
      if g.isEmpty then none else some g
    else
      let g := (c :: t).takeWhile (fun x => !isQuoteChar x)
      if g.isEmpty then none else some g

/-- The optional `(?:for\s+)?` group followed by the quote group, with
the internal whitespace run giving back its last character when the
group would otherwise be empty. -/
def tryForBranch (r : List Char) : Option (List Char) :=
  if listPre "for".toList r then
    let r2 := r.drop 3
    let w2 := r2.takeWhile jsWS
    if w2.isEmpty then none
    else
      let r3 := r2.drop w2.length
      match tryQuoteGroup r3 with
      | some g => some g
      | none => if 2 ≤ w2.length then some ((w2.getLastD ' ') :: r3.takeWhile (fun x => !isQuoteChar x)) else none
  else none

/-- One attempt of `/search\s+(?:for\s+)?["']?([^"']+)["']?/i` at the
current position (the input is already lower-cased when the source calls
it), returning capture group 1. -/
def trySearchAt (cs : List Char) : Option (List Char) :=
  if listPre "search".toList cs then
    let r0 := cs.drop 6
    let w := r0.takeWhile jsWS
    if w.isEmpty then none
    else
      let r1 := r0.drop w.length
      match tryForBranch r1 with
      | some g => some g
      | none =>
        match tryQuoteGroup r1 with
        | some g => some g
        | none => if 2 ≤ w.length then some ((w.getLastD ' ') :: r1.takeWhile (fun x => !isQuoteChar x)) else none
  else none

/-- Left-to-right scan for the first position where the search regex
matches. -/
def searchScan : List Char → Option (List Char)
  | [] => none
  | c :: t =>
    match trySearchAt (c :: t) with
    | some g => some g
    | none => searchScan t

/-- `WebBrowsingAgent.extractSearchQuery`: the first match's capture
group, trimmed; `null` when there is no match.  (The source returns the
trimmed group only when the raw group is truthy, and a regex group from
`+` is always non-empty, so the guard never fires.) -/
def extractSearchQuery (d : String) : Option String :=
  (searchScan d.toList).map (fun g => jsTrim (String.mk g))

/-- The stop-word list of `extractTopic`. -/
def topicStopwords : List String :=
  ["the", "and", "a", "an", "in", "on", "at", "to", "for", "with", "about"]

mutual
/-- JS `split(/\s+/)` while inside a token (keeps the empty
leading/trailing tokens JS produces). -/
def splitWsTok : List Char → List Char → List (List Char)
  | [], cur => [cur.reverse]
  | c :: t, cur => if jsWS c then cur.reverse :: splitWsGap t else splitWsTok t (c :: cur)
/-- JS `split(/\s+/)` while inside a separator run. -/
def splitWsGap : List Char → List (List Char)
  | [] => [[]]
  | c :: t => if jsWS c then splitWsGap t else splitWsTok t [c]
end

/-- `WebBrowsingAgent.extractTopic`: strip non-word, non-space characters
to spaces, split on whitespace, drop stop words and short words, and join
the first at most five remaining words. -/
def extractTopic (d : String) : Option String :=
  let cleaned := d.toList.map (fun c => if isWordChar c || jsWS c then c else ' ')
  let words := (splitWsTok cleaned []).map String.mk
  let words := words.filter (fun w => !(topicStopwords.contains (jsToLower w)) && 2 < w.length)
  if words.isEmpty then none
  else some (String.intercalate " " (words.take (min 5 words.length)))

/-- `WebBrowsingAgent.analyzeStepToActions` (lines 156-214): navigate to
every URL in the description; otherwise a search action when the
description mentions search and a non-empty query is extracted; plus an
extract action on extract/get/scrape; and, when nothing was produced, a
topic search or a screenshot as the final fallback. -/
def webAnalyzeActions (rawDesc : String) : List JObj :=
  let d := jsToLower rawDesc
  let urls := extractUrls d
  let acts : List JObj :=
    if !urls.isEmpty then
      urls.map (fun u => [("type", .str "navigate"), ("url", .str u)])
    else if strContains d "search" then
      match extractSearchQuery d with
      | some q => if q = "" then [] else [[("type", .str "search"), ("query", .str q)]]
      | none => []
    else []
  let acts := acts ++
    (if strContains d "extract" || strContains d "get" || strContains d "scrape" then
      [[("type", .str "extract"), ("selector", .str "body")]]
    else [])
  if acts.isEmpty then
    match extractTopic d with
    | some t => [[("type", .str "search"), ("query", .str t)]]
    | none => [[("type", .str "screenshot")]]
  else acts

/-! ### GeneralPurposeAgent.analyzeStepForActions
The source asks the collaborator for a JSON array of actions, parses it
with `JSON.parse`, falls back to extracting the `\[[\s\S]*\]` span and
parsing that, and only when both attempts fail (or yield a non-array)
emits a single default `execute_code` action.  `JSON.parse` is the JS
builtin; it is modelled by a standard recursive-descent JSON parser. -/

/-- A JSON value (numbers kept as their raw token). -/
inductive Json where
  | jnull
  | jbool (b : Bool)
  | jnum (raw : String)
  | jstr (s : String)
  | jarr (xs : List Json)
  | jobj (fields : List (String × Json))

/-- JSON whitespace. -/
def jsonWs (c : Char) : Bool := c = ' ' || c = '\t' || c = '\n' || c = '\r'

/-- Skip JSON whitespace. -/
def skipWs (cs : List Char) : List Char := cs.dropWhile jsonWs

/-- Hex digit test for `\u` escapes. -/
def isHexDigit (c : Char) : Bool :=
  c.isDigit || ('a' ≤ c && c ≤ 'f') || ('A' ≤ c && c ≤ 'F')

/-- JSON string body after the opening quote: escapes are validated and
kept undecoded (their decoding never matters to emptiness of an array),
unescaped control characters are rejected. -/
def parseJStr : List Char → List Char → Option (String × List Char)
  | [], _ => none
  | c :: t, acc =>
    if c = '"' then some (String.mk acc.reverse, t)
    else if c = '\\' then
      match t with
      | [] => none
      | e :: t2 =>
        if e = '"' || e = '\\' || e = '/' || e = 'b' || e = 'f' || e = 'n' || e = 'r' || e = 't' then
          parseJStr t2 (e :: c :: acc)
        else if e = 'u' then
          match t2 with
          | h1 :: h2 :: h3 :: h4 :: t3 =>
            if isHexDigit h1 && isHexDigit h2 && isHexDigit h3 && isHexDigit h4 then
              parseJStr t3 (h4 :: h3 :: h2 :: h1 :: e :: c :: acc)
            else none
          | _ => none
        else none
    else if c.toNat < 0x20 then none
    else parseJStr t (c :: acc)

/-- JSON number token: `-?(0|[1-9][0-9]*)(\.[0-9]+)?([eE][+-]?[0-9]+)?`. -/
def parseJNum (cs : List Char) : Option (String × List Char) :=
  let (sign, r1) := if cs.head? = some '-' then ([('-' : Char)], cs.drop 1) else ([], cs)
  let intPart :=
    match r1 with
    | '0' :: r2 => some ([('0' : Char)], r2)
    | c :: _ =>
      if c.isDigit then
        let run := r1.takeWhile Char.isDigit
        some (run, r1.drop run.length)
      else none
    | [] => none
  match intPart with
  | none => none
  | some (ip, r3) =>
    let (fp, r4) :=
      match r3 with
      | '.' :: r3' =>
        let run := r3'.takeWhile Char.isDigit
        if run.isEmpty then ([], r3) else ('.' :: run, r3'.drop run.length)
      | _ => ([], r3)
    if r3 ≠ [] && r3.head? = some '.' && fp = [] then none
    else
      let (ep, r5) :=
        match r4 with
        | c :: r4' =>
          if c = 'e' || c = 'E' then
            let (sgn, r4'') :=
              match r4' with
              | s :: r => if s = '+' || s = '-' then ([s], r) else ([], r4')
              | [] => ([], r4')
            let run := r4''.takeWhile Char.isDigit
            if run.isEmpty then ([], r4) else (c :: (sgn ++ run), r4''.drop run.length)
          else ([], r4)
        | [] => ([], r4)
      if r4 ≠ [] && (r4.head? = some 'e' || r4.head? = some 'E') && ep = [] then none
      else some (String.mk (sign ++ ip ++ fp ++ ep), r5)

mutual
/-- One JSON value at the current position (fuelled; the fuel used at
the top level strictly dominates the recursion depth). -/
def parseJVal : Nat → List Char → Option (Json × List Char)
  | 0, _ => none
  | fuel+1, cs =>
    match skipWs cs with
    | [] => none
    | c :: rest =>
      if c = 'n' then
        if listPre "ull".toList rest then some (.jnull, rest.drop 3) else none
      else if c = 't' then
        if listPre "rue".toList rest then some (.jbool true, rest.drop 3) else none
      else if c = 'f' then
        if listPre "alse".toList rest then some (.jbool false, rest.drop 4) else none
      else if c = '"' then
        (parseJStr rest []).map (fun p => (.jstr p.1, p.2))
      else if c = '[' then
        match skipWs rest with
        | ']' :: r2 => some (.jarr [], r2)
        | r1 => parseJArrElems fuel r1 []
      else if c = '\x7b' then
        match skipWs rest with
        | '\x7d' :: r2 => some (.jobj [], r2)
        | r1 => parseJObjFields fuel r1 []
      else
        (parseJNum (c :: rest)).map (fun p => (.jnum p.1, p.2))

/-- Array elements after `[` (or after a comma). -/
def parseJArrElems : Nat → List Char → List Json → Option (Json × List Char)
  | 0, _, _ => none
  | fuel+1, cs, acc =>
    match parseJVal fuel cs with
    | none => none
    | some (v, r) =>
      match skipWs r with
      | ',' :: r2 => parseJArrElems fuel r2 (acc ++ [v])
      | ']' :: r2 => some (.jarr (acc ++ [v]), r2)
      | _ => none

/-- Object fields after `{` (or after a comma). -/
def parseJObjFields : Nat → List Char → List (String × Json) → Option (Json × List Char)
  | 0, _, _ => none
  | fuel+1, cs, acc =>
    match skipWs cs with
    | '"' :: r =>
      match parseJStr r [] with
      | none => none
      | some (key, r1) =>
        match skipWs r1 with
        | ':' :: r2 =>
          match parseJVal fuel r2 with
          | none => none
          | some (v, r3) =>
            match skipWs r3 with
            | ',' :: r4 => parseJObjFields fuel r4 (acc ++ [(key, v)])
            | '\x7d' :: r4 => some (.jobj (acc ++ [(key, v)]), r4)
            | _ => none
        | _ => none
    | _ => none
end

/-- JS `JSON.parse`: a single value covering the whole input (modulo
trailing whitespace); any violation throws, modelled as `none`. -/
def jsonParse (s : String) : Option Json :=
  match parseJVal (2 * s.length + 16) s.toList with
  | some (v, rest) => if skipWs rest = [] then some v else none
  | none => none

/-- The source's `JSON.parse` + `Array.isArray` gate: a successful parse
of a non-array throws `'Response is not an array'` into the same catch
as a parse failure, so both are `none` here. -/
def jsParseArray (s : String) : Option (List Json) :=
  match jsonParse s with
  | some (.jarr xs) => some xs
  | _ => none

/-- The `\[[\s\S]*\]` extraction: greedy from the first `[` to the last
`]`, provided the latter comes after the former. -/
def extractBracketSpan (s : String) : Option String :=
  let cs := s.toList
  match cs.findIdx? (· = '['), (cs.reverse.findIdx? (· = ']')) with
  | some i, some jr =>
    let j := cs.length - 1 - jr
    if i < j then some (String.mk ((cs.drop i).take (j - i + 1))) else none
  | _, _ => none

/-- The embedded python script of the general agent's default action,
with the step description interpolated (braces escaped as characters). -/
def generalDefaultCode (desc : String) : String :=
  "\n# Simple script to handle the task\nimport json\n\ndef process_task():\n    task_description = \"\"\"" ++ desc ++
  "\"\"\"\n    print(f\"Processing task: \x7btask_description\x7d\")\n    \n    # Basic analysis\n    words = task_description.lower().split()\n    word_count = len(words)\n    \n    result = \x7b\n        \"task_analysis\": \x7b\n            \"word_count\": word_count,\n            \"contains_web_request\": any(w in words for w in [\"web\", \"browse\", \"search\", \"internet\", \"online\"]),\n            \"contains_code_request\": any(w in words for w in [\"code\", \"program\", \"script\", \"function\", \"algorithm\"]),\n            \"contains_file_request\": any(w in words for w in [\"file\", \"document\", \"read\", \"write\", \"save\"]),\n            \"contains_shell_request\": any(w in words for w in [\"command\", \"shell\", \"execute\", \"run\", \"system\"])\n        \x7d,\n        \"conclusion\": \"Task requires general processing\",\n        \"response\": f\"Completed analysis of the task: \x7btask_description[:50]\x7d...\"\n    \x7d\n    \n    print(json.dumps(result, indent=2))\n    return result\n\nprocess_task()\n              "

/-- The default action emitted when neither parse attempt yields an
array (part_003:224-261). -/
def generalDefaultAction (desc : String) : Json :=
  .jobj [("type", .jstr "execute_code"), ("tool", .jstr "code"),
         ("parameters", .jobj [("language", .jstr "python"), ("code", .jstr (generalDefaultCode desc))])]

/-- `GeneralPurposeAgent.analyzeStepForActions` as a function of the
collaborator's response text: a parsed array (empty or not) is returned
as-is; otherwise the bracket span is tried; only when that also fails to
produce an array is the single default action emitted. -/
def generalAnalyzeActions (response : String) (desc : String) : List Json :=
  match jsParseArray response with
  | some xs => xs
  | none =>
    match extractBracketSpan response with
    | some sub =>
      match jsParseArray sub with
      | some ys => ys
      | none => [generalDefaultAction desc]
    | none => [generalDefaultAction desc]

/-! ### Handler selection
Two distinct mechanisms exist in the source:
`SpecializedAgentRegistry.selectAgentForStep` (specialized/index.ts:54-69)
iterates the registered agents in insertion order (WebBrowsingAgent,
DataAnalysisAgent, DocumentProcessingAgent, CodeExecutionAgent,
GeneralPurposeAgent), skips the general-purpose agent, returns the first
whose `canHandleStep` is true, and falls back to the general-purpose
agent; while `ExecutorAgent.analyzeStepForAgentSelection`
(executor.ts:134-150) — the one actually called from `executeTaskStep` —
is a keyword if/else chain of its own. -/

/-- The registered agents. -/
inductive AgentName where
  | webBrowsing | dataAnalysis | documentProcessing | codeExecution | generalPurpose
deriving DecidableEq, Repr

/-- `WebBrowsingAgent.canHandleStep` keyword list (part_004:144-148). -/
def webKeywords : List String :=
  ["web", "browse", "browser", "website", "url", "http", "search",
   "navigate", "visit", "page", "internet", "online", "google",
   "download", "scrape", "extract"]

/-- `DataAnalysisAgent.canHandleStep` keyword list
(document-processing-agent.ts:1069-1074). -/
def dataKeywords : List String :=
  ["data", "analysis", "analyze", "statistics", "statistical",
   "visualization", "visualize", "chart", "graph", "plot",
   "excel", "csv", "dataset", "pandas", "numpy", "correlation",
   "regression", "mean", "median", "average", "standard deviation"]

/-- `DocumentProcessingAgent.canHandleStep` keyword list
(document-processing-agent.ts:149-153). -/
def documentKeywords : List String :=
  ["document", "file", "text", "pdf", "word", "docx", "excel", "xlsx",
   "read", "write", "create", "update", "merge", "extract", "convert",
   "report", "template", "format", "markdown", "html", "text"]

/-- `CodeExecutionAgent.canHandleStep` keyword list
(code-execution-agent.ts:149-154). -/
def codeKeywords : List String :=
  ["code", "script", "program", "function", "algorithm",
   "python", "javascript", "typescript", "node", "nodejs",
   "execute", "run", "compile", "build", "develop",
   "optimize", "refactor", "debug", "fix", "implement"]

/-- The shared shape of the specialized agents' `canHandleStep`:
lower-case the description, then `keywords.some(k => d.includes(k))`. -/
def keywordCanHandle (keywords : List String) (desc : String) : Bool :=
  keywords.any (fun k => strContains (jsToLower desc) k)

/-- `WebBrowsingAgent.canHandleStep`. -/
def webCanHandleStep (desc : String) : Bool := keywordCanHandle webKeywords desc

/-- `DataAnalysisAgent.canHandleStep`. -/
def dataCanHandleStep (desc : String) : Bool := keywordCanHandle dataKeywords desc

/-- `DocumentProcessingAgent.canHandleStep`. -/
def documentCanHandleStep (desc : String) : Bool := keywordCanHandle documentKeywords desc

/-- `CodeExecutionAgent.canHandleStep`. -/
def codeCanHandleStep (desc : String) : Bool := keywordCanHandle codeKeywords desc

/-- `SpecializedAgentRegistry.selectAgentForStep`: first-match-wins over
the agents in registration order, the general-purpose agent excluded
from the pass and used as the fallback.  (`GeneralPurposeAgent.canHandleStep`
returns true unconditionally; it is never consulted here.) -/
def selectAgentForStep (desc : String) : AgentName :=
  if webCanHandleStep desc then .webBrowsing
  else if dataCanHandleStep desc then .dataAnalysis
  else if documentCanHandleStep desc then .documentProcessing
  else if codeCanHandleStep desc then .codeExecution
  else .generalPurpose

/-- `ExecutorAgent.analyzeStepForAgentSelection` (executor.ts:134-150),
composed with the registry's `getAgent` name lookup (every name it
returns is registered, so `getAgent` is the identity on these names).
This — not `selectAgentForStep` — is what `executeTaskStep` invokes. -/
def analyzeStepForAgentSelection (desc : String) : AgentName :=
  let d := jsToLower desc
  if strContains d "data" || strContains d "analyze" then .dataAnalysis
  else if strContains d "web" || strContains d "browse" || strContains d "search" then .webBrowsing
  else if strContains d "file" || strContains d "document" then .documentProcessing
  else if strContains d "code" || strContains d "program" then .codeExecution
  else .generalPurpose

/-! ### Auxiliary forms used to state and prove the loop theorems -/

/-- The state after the executor has run steps `i, i+1, ..., i+m-1` to
completion (IN_PROGRESS write then COMPLETED write each). -/
def completeBlock : ExecState → Nat → Nat → ExecState
  | s, _, 0 => s
  | s, i, m+1 => completeBlock (completeStep (startStep s i) i) (i+1) m

/-- All step rows from index `i` on are freshly inserted PENDING rows. -/
def pendingFrom (s : ExecState) (i : Nat) : Prop :=
  ∀ j, i ≤ j → j < s.steps.length → s.steps[j]? = some pendingRec

/-- The action lists used by the C5 and C6 witnesses: the generate /
execute pair of the code decomposer scenario, in raw (pre-resolver)
form. -/
def demoRawActs : List JObj :=
  [[("type", .str "generate_code"), ("problem", .str "write a sort"), ("language", .str "python")],
   [("type", .str "execute_code"), ("code", .str sentinelPropCode), ("language", .str "python"), ("args", .strList [])]]

/-- A tool behaviour that fails the first action and succeeds afterwards
(used by the C6 witness). -/
def demoTool : Nat → Except String PValue :=
  fun i => if i = 0 then .error "tool blew up" else .ok (.str "output")

/-- The concrete inputs of the C4 code-bug theorem: the spec's own
scenario, a step description whose decomposition is
`[generate_code, execute_code]` with the execute action's `code`
parameter resolved to a Reference to action 0. -/
def c4Desc : String := "create and run a python script"

/-- The decomposer output for `c4Desc` (already resolver-rewritten, as
in the source). -/
def c4Acts : List JObj := codeAnalyzeActions c4Desc 0

/-- A tool behaviour for the C4 run on which every invocation succeeds
(so the generate action computes a result the runner could have
substituted). -/
def c4Tool : Nat → Except String PValue := fun _ => .ok (.str "def sort(xs): return sorted(xs)")

/-- The state `executeTask` has built when it enters the step loop:
task IN_PROGRESS (after the PENDING, PLANNING, IN_PROGRESS writes) and
one freshly inserted PENDING row per planned step. -/
def readyState (n : Nat) : ExecState :=
  { taskStatus := .inProgress,
    taskTrace := [.pending, .planning, .inProgress],
    steps := List.replicate n pendingRec }

/-! ## Theorems -/

/-! ### List and state helper lemmas -/

theorem updateAt_length (l : List α) : ∀ (i : Nat) (f : α → α), (updateAt l i f).length = l.length := by
  induction l with
  | nil => intro i f; rfl
  | cons a t ih =>
    intro i f
    cases i with
    | zero => simp [updateAt]
    | succ n => simp [updateAt, ih]

theorem updateAt_getElem? (l : List α) : ∀ (i j : Nat) (f : α → α),
    (updateAt l i f)[j]? = if i = j then (l[j]?).map f else l[j]? := by
  induction l with
  | nil => intro i j f; cases i <;> simp [updateAt]
  | cons a t ih =>
    intro i j f
    cases i with
    | zero =>
      cases j with
      | zero => simp [updateAt]
      | succ m => simp [updateAt]
    | succ n =>
      cases j with
      | zero => simp [updateAt]
      | succ m =>
        simp only [updateAt, List.getElem?_cons_succ, ih]
        by_cases h : n = m
        · simp [h]
        · simp [h, fun hc => h (Nat.succ_injective hc)]

theorem replicate_getElem? (a : α) : ∀ (n j : Nat),
    (List.replicate n a)[j]? = if j < n then some a else none := by
  intro n
  induction n with
  | zero => intro j; simp
  | succ m ih =>
    intro j
    cases j with
    | zero => simp [List.replicate]
    | succ k => simp [List.replicate, ih, Nat.succ_lt_succ_iff]

theorem setTask_steps (s : ExecState) (t : TaskStatus) : (setTask s t).steps = s.steps := rfl

theorem setTask_taskStatus (s : ExecState) (t : TaskStatus) : (setTask s t).taskStatus = t := rfl

theorem startStep_taskStatus (s : ExecState) (i : Nat) : (startStep s i).taskStatus = s.taskStatus := rfl

theorem completeStep_taskStatus (s : ExecState) (i : Nat) : (completeStep s i).taskStatus = s.taskStatus := rfl

theorem failStepAt_taskStatus (s : ExecState) (i : Nat) : (failStepAt s i).taskStatus = s.taskStatus := rfl

theorem startStep_len (s : ExecState) (i : Nat) : (startStep s i).steps.length = s.steps.length := by
  simp [startStep, updateAt_length]

theorem completeStep_len (s : ExecState) (i : Nat) : (completeStep s i).steps.length = s.steps.length := by
  simp [completeStep, updateAt_length]

theorem failStepAt_len (s : ExecState) (i : Nat) : (failStepAt s i).steps.length = s.steps.length := by
  simp [failStepAt, updateAt_length]

theorem applyCancel_len (s : ExecState) : (applyCancel s).steps.length = s.steps.length := by
  unfold applyCancel
  by_cases h : cancellable s.taskStatus <;> simp [h]

theorem applyCancel_taskStatus_inProgress (s : ExecState) (h : s.taskStatus = .inProgress) :
    (applyCancel s).taskStatus = .failed := by
  unfold applyCancel
  rw [h]
  rfl

theorem applyCancel_getElem? (s : ExecState) (j : Nat) :
    (applyCancel s).steps[j]? =
      if cancellable s.taskStatus then (s.steps[j]?).map cancelStepFix else s.steps[j]? := by
  unfold applyCancel
  by_cases h : cancellable s.taskStatus <;> simp [h]

theorem cancelStepFix_pending : cancelStepFix pendingRec = pendingRec := by decide

theorem cancelStepFix_not_inProgress (r : StepRec) (h : r.status ≠ .inProgress) :
    cancelStepFix r = r := by
  unfold cancelStepFix
  rw [if_neg h]

/-! ### Step-loop lemmas -/

theorem completeBlock_taskStatus : ∀ (m : Nat) (s : ExecState) (i : Nat),
    (completeBlock s i m).taskStatus = s.taskStatus := by
  intro m
  induction m with
  | zero => intro s i; rfl
  | succ k ih => intro s i; rw [completeBlock, ih]; rfl

theorem completeBlock_len : ∀ (m : Nat) (s : ExecState) (i : Nat),
    (completeBlock s i m).steps.length = s.steps.length := by
  intro m
  induction m with
  | zero => intro s i; rfl
  | succ k ih =>
    intro s i
    simp [completeBlock, ih, completeStep, startStep, updateAt_length]

theorem completeBlock_getElem?_out : ∀ (m : Nat) (s : ExecState) (i j : Nat),
    (j < i ∨ i + m ≤ j) → (completeBlock s i m).steps[j]? = s.steps[j]? := by
  intro m
  induction m with
  | zero => intro s i j _; rfl
  | succ k ih =>
    intro s i j hj
    have hij : i ≠ j := by omega
    have : j < i + 1 ∨ (i + 1) + k ≤ j := by omega
    rw [completeBlock, ih _ _ _ this]
    simp [completeStep, startStep, updateAt_getElem?, hij]

theorem completeBlock_getElem?_in : ∀ (m : Nat) (s : ExecState) (i j : Nat),
    i ≤ j → j < i + m → j < s.steps.length →
    (completeBlock s i m).steps[j]? = some ⟨.completed, true, true⟩ := by
  intro m
  induction m with
  | zero => intro s i j h1 h2 _; omega
  | succ k ih =>
    intro s i j h1 h2 hlen
    by_cases hij : i = j
    · subst hij
      have hout : i < i + 1 ∨ (i + 1) + k ≤ i := by omega
      rw [completeBlock, completeBlock_getElem?_out _ _ _ _ hout]
      obtain ⟨r, hr⟩ : ∃ r, s.steps[i]? = some r := by
        cases h : s.steps[i]? with
        | none => exact absurd (List.getElem?_eq_none_iff.mp h) (by omega)
        | some r => exact ⟨r, rfl⟩
      simp [completeStep, startStep, updateAt_getElem?, hr]
    · have h1' : i + 1 ≤ j := by omega
      have h2' : j < (i + 1) + k := by omega
      have hlen' : j < (completeStep (startStep s i) i).steps.length := by
        simpa [completeStep_len, startStep_len] using hlen
      rw [completeBlock]
      exact ih _ _ _ h1' h2' hlen'

theorem startStep_getElem?_ne (s : ExecState) (i j : Nat) (h : i ≠ j) :
    (startStep s i).steps[j]? = s.steps[j]? := by
  simp [startStep, updateAt_getElem?, h]

theorem completeStep_getElem?_ne (s : ExecState) (i j : Nat) (h : i ≠ j) :
    (completeStep s i).steps[j]? = s.steps[j]? := by
  simp [completeStep, updateAt_getElem?, h]

theorem failStepAt_getElem?_ne (s : ExecState) (i j : Nat) (h : i ≠ j) :
    (failStepAt s i).steps[j]? = s.steps[j]? := by
  simp [failStepAt, updateAt_getElem?, h]

theorem applyCancel_preserves (s : ExecState) (j : Nat) (r : StepRec)
    (hr : s.steps[j]? = some r) (hfix : cancelStepFix r = r) :
    (applyCancel s).steps[j]? = some r := by
  rw [applyCancel_getElem?]
  by_cases hc : cancellable s.taskStatus <;> simp [hc, hr, hfix]

theorem iterMid_no_cancel (cancel : Option CancelPoint) (i : Nat) (s : ExecState)
    (hb : ¬ (cancel = some (.before i))) (hd : ¬ (cancel = some (.during i))) :
    iterMid cancel i s = startStep s i := by
  unfold iterMid
  rw [if_neg hb, if_neg hd]

theorem iterMid_getElem?_ne (cancel : Option CancelPoint) (i : Nat) (s : ExecState)
    (j : Nat) (r : StepRec) (hij : i ≠ j)
    (hr : s.steps[j]? = some r) (hfix : cancelStepFix r = r) :
    (iterMid cancel i s).steps[j]? = some r := by
  unfold iterMid
  have h1 : (if cancel = some (.before i) then applyCancel s else s).steps[j]? = some r := by
    split
    · exact applyCancel_preserves _ _ _ hr hfix
    · exact hr
  have h2 : (startStep (if cancel = some (.before i) then applyCancel s else s) i).steps[j]? = some r := by
    rw [startStep_getElem?_ne _ _ _ hij]; exact h1
  split
  · exact applyCancel_preserves _ _ _ h2 hfix
  · exact h2

theorem iterMid_getElem?_self (cancel : Option CancelPoint) (i : Nat) (s : ExecState)
    (hr : s.steps[i]? = some pendingRec) :
    (iterMid cancel i s).steps[i]? = some ⟨.inProgress, true, false⟩ ∨
    (iterMid cancel i s).steps[i]? = some ⟨.failed, true, true⟩ := by
  unfold iterMid
  have h1 : (if cancel = some (.before i) then applyCancel s else s).steps[i]? = some pendingRec := by
    split
    · exact applyCancel_preserves _ _ _ hr cancelStepFix_pending
    · exact hr
  have h2 : (startStep (if cancel = some (.before i) then applyCancel s else s) i).steps[i]? =
      some ⟨.inProgress, true, false⟩ := by
    simp [startStep, updateAt_getElem?, h1, pendingRec]
  by_cases hd : cancel = some (.during i)
  · rw [if_pos hd, applyCancel_getElem?]
    by_cases hc : cancellable (startStep (if cancel = some (.before i) then applyCancel s else s) i).taskStatus
    · right
      rw [if_pos hc, h2]
      rfl
    · left
      rw [if_neg hc]
      exact h2
  · left
    rw [if_neg hd]
    exact h2

theorem iterMid_len (cancel : Option CancelPoint) (i : Nat) (s : ExecState) :
    (iterMid cancel i s).steps.length = s.steps.length := by
  unfold iterMid
  split
  · rw [applyCancel_len]
    split <;> simp [startStep_len, applyCancel_len]
  · split <;> simp [startStep_len, applyCancel_len]

theorem iterMid_taskStatus (cancel : Option CancelPoint) (i : Nat) (s : ExecState)
    (hst : s.taskStatus = .inProgress) :
    (iterMid cancel i s).taskStatus =
      (if cancel = some (.before i) ∨ cancel = some (.during i) then .failed else .inProgress) := by
  unfold iterMid
  by_cases hb : cancel = some (.before i)
  · have hd : ¬ (cancel = some (.during i)) := by rw [hb]; simp
    rw [if_pos hb, if_neg hd, if_pos (Or.inl hb), startStep_taskStatus,
      applyCancel_taskStatus_inProgress s hst]
  · rw [if_neg hb]
    by_cases hd : cancel = some (.during i)
    · rw [if_pos hd, if_pos (Or.inr hd)]
      exact applyCancel_taskStatus_inProgress _ (by rw [startStep_taskStatus, hst])
    · rw [if_neg hd, if_neg (by simp [hb, hd]), startStep_taskStatus, hst]

theorem loop_reach (cancel : Option CancelPoint) :
    ∀ (oks rest : List HandlerOutcome) (i : Nat) (s : ExecState),
    (∀ o ∈ oks, o.isOk = true) →
    (∀ j, j < oks.length → cancel ≠ some (.before (i + j)) ∧ cancel ≠ some (.during (i + j))) →
    s.taskStatus = .inProgress →
    stepLoop cancel (oks ++ rest) i s = stepLoop cancel rest (i + oks.length) (completeBlock s i oks.length) := by
  intro oks
  induction oks with
  | nil => intro rest i s _ _ _; simp [completeBlock]
  | cons o oks' ih =>
    intro rest i s hok hcan hst
    have ho : o.isOk = true := hok o (by simp)
    obtain ⟨b, rfl⟩ : ∃ b, o = .ok b := by
      cases o with
      | ok b => exact ⟨b, rfl⟩
      | exc m => simp [HandlerOutcome.isOk] at ho
    have hb : ¬ (cancel = some (.before i)) := by
      have := (hcan 0 (by simp)).1
      simpa using this
    have hd : ¬ (cancel = some (.during i)) := by
      have := (hcan 0 (by simp)).2
      simpa using this
    have hmid : iterMid cancel i s = startStep s i := iterMid_no_cancel cancel i s hb hd
    have hst4 : (completeStep (startStep s i) i).taskStatus = s.taskStatus := rfl
    have hnotfail : ¬ ((completeStep (startStep s i) i).taskStatus = TaskStatus.failed) := by
      rw [hst4, hst]; intro h; cases h
    show stepLoop cancel (.ok b :: (oks' ++ rest)) i s = _
    rw [stepLoop]
    simp only [hmid, if_neg hnotfail]
    rw [ih rest (i + 1) (completeStep (startStep s i) i)
      (fun o' ho' => hok o' (by simp [ho']))
      (fun j hj => by
        have := hcan (j + 1) (by simpa using Nat.succ_lt_succ hj)
        constructor
        · intro hc; exact this.1 (by rw [hc]; congr 2; omega)
        · intro hc; exact this.2 (by rw [hc]; congr 2; omega))
      (by rw [hst4, hst])]
    have harith : i + 1 + oks'.length = i + (oks'.length + 1) := by omega
    rw [show (completeBlock (completeStep (startStep s i) i) (i + 1) oks'.length) = completeBlock s i (oks'.length + 1) from rfl]
    simp [harith]

theorem stepLoop_preserves_settled (cancel : Option CancelPoint) :
    ∀ (rest : List HandlerOutcome) (i : Nat) (s : ExecState) (j : Nat) (r : StepRec),
    j < i → s.steps[j]? = some r → r.status ≠ .inProgress →
    ((stepLoop cancel rest i s).1).steps[j]? = some r := by
  intro rest
  induction rest with
  | nil => intro i s j r _ hr _; exact hr
  | cons o rest' ih =>
    intro i s j r hj hr hst
    have hfix : cancelStepFix r = r := cancelStepFix_not_inProgress r hst
    have hij : i ≠ j := by omega
    have hmid : (iterMid cancel i s).steps[j]? = some r :=
      iterMid_getElem?_ne cancel i s j r hij hr hfix
    cases o with
    | exc m =>
      show ((failStepAt (iterMid cancel i s) i, true).1).steps[j]? = some r
      rw [show ((failStepAt (iterMid cancel i s) i, true)).1 = failStepAt (iterMid cancel i s) i from rfl]
      rw [failStepAt_getElem?_ne _ _ _ hij]
      exact hmid
    | ok b =>
      have step4 : (completeStep (iterMid cancel i s) i).steps[j]? = some r := by
        rw [completeStep_getElem?_ne _ _ _ hij]; exact hmid
      show (((if (completeStep (iterMid cancel i s) i).taskStatus = TaskStatus.failed then
          (completeStep (iterMid cancel i s) i, false)
        else stepLoop cancel rest' (i + 1) (completeStep (iterMid cancel i s) i))).1).steps[j]? = some r
      split
      · exact step4
      · exact ih (i + 1) _ j r (by omega) step4 hst

theorem startStep_getElem?_self (s : ExecState) (i : Nat) :
    (startStep s i).steps[i]? =
      (s.steps[i]?).map (fun st => { st with status := .inProgress, hasStartedAt := true }) := by
  simp [startStep, updateAt_getElem?]

theorem completeStep_getElem?_self (s : ExecState) (i : Nat) :
    (completeStep s i).steps[i]? =
      (s.steps[i]?).map (fun st => { st with status := .completed, hasCompletedAt := true }) := by
  simp [completeStep, updateAt_getElem?]

theorem failStepAt_getElem?_self (s : ExecState) (i : Nat) :
    (failStepAt s i).steps[i]? =
      (s.steps[i]?).map (fun st => { st with status := .failed, hasCompletedAt := true }) := by
  simp [failStepAt, updateAt_getElem?]

theorem stepLoop_exc (cancel : Option CancelPoint) (msg : String) (tail : List HandlerOutcome)
    (k : Nat) (s : ExecState)
    (hkp : s.steps[k]? = some pendingRec)
    (hpend : ∀ j, k < j → j < s.steps.length → s.steps[j]? = some pendingRec) :
    (stepLoop cancel (.exc msg :: tail) k s).2 = true ∧
    ((stepLoop cancel (.exc msg :: tail) k s).1).steps.length = s.steps.length ∧
    ((stepLoop cancel (.exc msg :: tail) k s).1).steps[k]? = some ⟨.failed, true, true⟩ ∧
    (∀ j, k < j → j < s.steps.length →
      ((stepLoop cancel (.exc msg :: tail) k s).1).steps[j]? = some pendingRec) := by
  have hred : stepLoop cancel (.exc msg :: tail) k s = (failStepAt (iterMid cancel k s) k, true) := rfl
  rw [hred]
  refine ⟨rfl, ?_, ?_, ?_⟩
  · rw [show ((failStepAt (iterMid cancel k s) k, true)).1 = failStepAt (iterMid cancel k s) k from rfl,
      failStepAt_len, iterMid_len]
  · rw [show ((failStepAt (iterMid cancel k s) k, true)).1 = failStepAt (iterMid cancel k s) k from rfl,
      failStepAt_getElem?_self]
    rcases iterMid_getElem?_self cancel k s hkp with h | h <;> rw [h] <;> rfl
  · intro j hj hjlen
    rw [show ((failStepAt (iterMid cancel k s) k, true)).1 = failStepAt (iterMid cancel k s) k from rfl,
      failStepAt_getElem?_ne _ _ _ (by omega)]
    exact iterMid_getElem?_ne cancel k s j pendingRec (by omega) (hpend j hj hjlen) cancelStepFix_pending

theorem stepLoop_ok_cancelled (cancel : Option CancelPoint) (b : Bool) (tail : List HandlerOutcome)
    (k : Nat) (s : ExecState)
    (hst : s.taskStatus = .inProgress)
    (hkp : s.steps[k]? = some pendingRec)
    (hpend : ∀ j, k < j → j < s.steps.length → s.steps[j]? = some pendingRec)
    (hc : cancel = some (.before k) ∨ cancel = some (.during k)) :
    (stepLoop cancel (.ok b :: tail) k s).2 = false ∧
    ((stepLoop cancel (.ok b :: tail) k s).1).steps.length = s.steps.length ∧
    ((stepLoop cancel (.ok b :: tail) k s).1).steps[k]? = some ⟨.completed, true, true⟩ ∧
    (∀ j, k < j → j < s.steps.length →
      ((stepLoop cancel (.ok b :: tail) k s).1).steps[j]? = some pendingRec) := by
  have hfail : (completeStep (iterMid cancel k s) k).taskStatus = .failed := by
    rw [completeStep_taskStatus, iterMid_taskStatus cancel k s hst, if_pos hc]
  have hred : stepLoop cancel (.ok b :: tail) k s = (completeStep (iterMid cancel k s) k, false) := by
    show (if (completeStep (iterMid cancel k s) k).taskStatus = TaskStatus.failed then
        (completeStep (iterMid cancel k s) k, false)
      else stepLoop cancel tail (k + 1) (completeStep (iterMid cancel k s) k)) = _
    rw [if_pos hfail]
  rw [hred]
  refine ⟨rfl, ?_, ?_, ?_⟩
  · rw [show ((completeStep (iterMid cancel k s) k, false)).1 = completeStep (iterMid cancel k s) k from rfl,
      completeStep_len, iterMid_len]
  · rw [show ((completeStep (iterMid cancel k s) k, false)).1 = completeStep (iterMid cancel k s) k from rfl,
      completeStep_getElem?_self]
    rcases iterMid_getElem?_self cancel k s hkp with h | h <;> rw [h] <;> rfl
  · intro j hj hjlen
    rw [show ((completeStep (iterMid cancel k s) k, false)).1 = completeStep (iterMid cancel k s) k from rfl,
      completeStep_getElem?_ne _ _ _ (by omega)]
    exact iterMid_getElem?_ne cancel k s j pendingRec (by omega) (hpend j hj hjlen) cancelStepFix_pending

theorem stepLoop_ok_settles (cancel : Option CancelPoint) (b : Bool) (tail : List HandlerOutcome)
    (k : Nat) (s : ExecState)
    (hkp : s.steps[k]? = some pendingRec) :
    ((stepLoop cancel (.ok b :: tail) k s).1).steps[k]? = some ⟨.completed, true, true⟩ := by
  have hself : (completeStep (iterMid cancel k s) k).steps[k]? = some ⟨.completed, true, true⟩ := by
    rw [completeStep_getElem?_self]
    rcases iterMid_getElem?_self cancel k s hkp with h | h <;> rw [h] <;> rfl
  show (((if (completeStep (iterMid cancel k s) k).taskStatus = TaskStatus.failed then
      (completeStep (iterMid cancel k s) k, false)
    else stepLoop cancel tail (k + 1) (completeStep (iterMid cancel k s) k))).1).steps[k]? = _
  split
  · exact hself
  · exact stepLoop_preserves_settled cancel tail (k + 1) _ k _ (by omega) hself (by intro h; cases h)

theorem readyState_taskStatus (n : Nat) : (readyState n).taskStatus = .inProgress := rfl

theorem readyState_len (n : Nat) : (readyState n).steps.length = n := by
  simp [readyState]

theorem readyState_getElem? (n j : Nat) :
    (readyState n).steps[j]? = if j < n then some pendingRec else none := by
  simp [readyState, replicate_getElem?]

theorem executeTask_unfold (outcomes : List HandlerOutcome) (cancel : Option CancelPoint) :
    executeTask outcomes cancel =
      (if (stepLoop cancel outcomes 0 (readyState outcomes.length)).2 then
        setTask (stepLoop cancel outcomes 0 (readyState outcomes.length)).1 .failed
      else setTask (stepLoop cancel outcomes 0 (readyState outcomes.length)).1 .resolved) := rfl

/-! ### Claim C1 -/

/-- C1: the claim that Task.status never leaves a terminal state is
violated by the code.  On a two-step task whose handlers both succeed,
with the external cancellation committing while step 1 is running, the
cancel route writes FAILED, the loop observes it and breaks — and
`executeTask` then unconditionally writes RESOLVED (executor.ts:58),
moving the task out of the terminal FAILED state.  The status trace of
the run is PENDING, PLANNING, IN_PROGRESS, FAILED, RESOLVED: a
FAILED → RESOLVED transition. -/
theorem c1_cancelled_task_resolved_trace :
    (executeTask [.ok true, .ok true] (some (.during 0))).taskStatus = .resolved ∧
    (executeTask [.ok true, .ok true] (some (.during 0))).taskTrace =
      [.pending, .planning, .inProgress, .failed, .resolved] := by
  constructor <;> rfl

/-! ### Claim C2 -/

/-- C2: fail-fast on a thrown step.  For every execution in which the
handlers for the first `k = oks.length` steps return normally, the
external cancellation does not commit at or before any of those steps,
and the handler for step `k` (0-based) throws: the executor records
step `k` as FAILED with a completion timestamp, re-raises so that every
later step stays PENDING and unstarted (so no later step ever reaches
IN_PROGRESS), and `handleExecutionError` sets the task to FAILED. -/
theorem c2_step_throw_failfast (oks : List HandlerOutcome) (msg : String)
    (tail : List HandlerOutcome) (cancel : Option CancelPoint)
    (hok : ∀ o ∈ oks, o.isOk = true)
    (hcan : ∀ j, j < oks.length → cancel ≠ some (.before j) ∧ cancel ≠ some (.during j)) :
    (executeTask (oks ++ .exc msg :: tail) cancel).taskStatus = .failed ∧
    (executeTask (oks ++ .exc msg :: tail) cancel).steps[oks.length]? = some ⟨.failed, true, true⟩ ∧
    (∀ j, oks.length < j → j < oks.length + 1 + tail.length →
      (executeTask (oks ++ .exc msg :: tail) cancel).steps[j]? = some pendingRec) := by
  have hn : (oks ++ .exc msg :: tail).length = oks.length + 1 + tail.length := by
    simp [List.length_append]
    omega
  have hreach := loop_reach cancel oks (.exc msg :: tail) 0
    (readyState (oks ++ .exc msg :: tail).length) hok
    (by intro j hj; simpa using hcan j hj)
    (readyState_taskStatus _)
  simp only [Nat.zero_add] at hreach
  have hCBlen : (completeBlock (readyState (oks ++ .exc msg :: tail).length) 0 oks.length).steps.length =
      (oks ++ .exc msg :: tail).length := by
    rw [completeBlock_len, readyState_len]
  have hkp : (completeBlock (readyState (oks ++ .exc msg :: tail).length) 0 oks.length).steps[oks.length]? =
      some pendingRec := by
    rw [completeBlock_getElem?_out _ _ _ _ (Or.inr (by omega)), readyState_getElem?,
      if_pos (by omega)]
  have hpend : ∀ j, oks.length < j →
      j < (completeBlock (readyState (oks ++ .exc msg :: tail).length) 0 oks.length).steps.length →
      (completeBlock (readyState (oks ++ .exc msg :: tail).length) 0 oks.length).steps[j]? =
        some pendingRec := by
    intro j hj hjl
    rw [hCBlen] at hjl
    rw [completeBlock_getElem?_out _ _ _ _ (Or.inr (by omega)), readyState_getElem?, if_pos hjl]
  have hexc := stepLoop_exc cancel msg tail oks.length
    (completeBlock (readyState (oks ++ .exc msg :: tail).length) 0 oks.length) hkp hpend
  rw [executeTask_unfold, hreach, if_pos hexc.1, setTask_taskStatus]
  refine ⟨rfl, ?_, ?_⟩
  · rw [setTask_steps]
    exact hexc.2.2.1
  · intro j hj hjl
    rw [setTask_steps]
    exact hexc.2.2.2 j hj (by rw [hCBlen, hn]; exact hjl)

/-- C2 witness: a two-step run whose second handler throws (no
cancellation): the task ends FAILED, step 1 is FAILED with a completion
timestamp. -/
theorem c2_step_throw_failfast_witness :
    (executeTask [.ok true, .exc "boom"] none).taskStatus = .failed ∧
    (executeTask [.ok true, .exc "boom"] none).steps[1]? = some ⟨.failed, true, true⟩ := by
  have h := c2_step_throw_failfast [.ok true] "boom" [] none
    (by decide) (by decide)
  exact ⟨h.1, h.2.1⟩

/-! ### Claim C7 -/

/-- C7 counterexample: the claim says the task status is re-read before
each step is started and a step whose boundary check sees FAILED is
never started.  But the code checks only after each step
(executor.ts:75-86): on a one-step task with the cancellation committing
before the loop's first iteration — the task is already FAILED when the
loop starts — the step is nevertheless started and runs to COMPLETED. -/
theorem c7_precheck_counterexample :
    (executeTask [.ok true] (some (.before 0))).steps[0]? = some ⟨.completed, true, true⟩ ∧
    (executeTask [.ok true] (some (.before 0))).taskTrace =
      [.pending, .planning, .inProgress, .failed, .resolved] := by
  constructor <;> rfl

/-- C7 as amended: the status is re-read after each step rather than
before it.  When the handlers for steps `0..k-1` (`k = oks.length`)
return normally, no cancellation commits at or before those steps, and
the cancellation commits just before or during step `k` (whose handler
returns normally): step `k` still runs to COMPLETED — a running step is
never interrupted — and the loop observes FAILED at the boundary check
after step `k` and stops, leaving every later step PENDING and
unstarted. -/
theorem c7_boundary_stop (oks : List HandlerOutcome) (b : Bool)
    (tail : List HandlerOutcome) (cancel : Option CancelPoint)
    (hok : ∀ o ∈ oks, o.isOk = true)
    (hcan : ∀ j, j < oks.length → cancel ≠ some (.before j) ∧ cancel ≠ some (.during j))
    (hat : cancel = some (.before oks.length) ∨ cancel = some (.during oks.length)) :
    (executeTask (oks ++ .ok b :: tail) cancel).steps[oks.length]? = some ⟨.completed, true, true⟩ ∧
    (∀ j, oks.length < j → j < oks.length + 1 + tail.length →
      (executeTask (oks ++ .ok b :: tail) cancel).steps[j]? = some pendingRec) := by
  have hn : (oks ++ .ok b :: tail).length = oks.length + 1 + tail.length := by
    simp [List.length_append]
    omega
  have hreach := loop_reach cancel oks (.ok b :: tail) 0
    (readyState (oks ++ .ok b :: tail).length) hok
    (by intro j hj; simpa using hcan j hj)
    (readyState_taskStatus _)
  simp only [Nat.zero_add] at hreach
  have hCBlen : (completeBlock (readyState (oks ++ .ok b :: tail).length) 0 oks.length).steps.length =
      (oks ++ .ok b :: tail).length := by
    rw [completeBlock_len, readyState_len]
  have hCBstat : (completeBlock (readyState (oks ++ .ok b :: tail).length) 0 oks.length).taskStatus =
      .inProgress := by
    rw [completeBlock_taskStatus, readyState_taskStatus]
  have hkp : (completeBlock (readyState (oks ++ .ok b :: tail).length) 0 oks.length).steps[oks.length]? =
      some pendingRec := by
    rw [completeBlock_getElem?_out _ _ _ _ (Or.inr (by omega)), readyState_getElem?,
      if_pos (by omega)]
  have hpend : ∀ j, oks.length < j →
      j < (completeBlock (readyState (oks ++ .ok b :: tail).length) 0 oks.length).steps.length →
      (completeBlock (readyState (oks ++ .ok b :: tail).length) 0 oks.length).steps[j]? =
        some pendingRec := by
    intro j hj hjl
    rw [hCBlen] at hjl
    rw [completeBlock_getElem?_out _ _ _ _ (Or.inr (by omega)), readyState_getElem?, if_pos hjl]
  have hokc := stepLoop_ok_cancelled cancel b tail oks.length
    (completeBlock (readyState (oks ++ .ok b :: tail).length) 0 oks.length)
    hCBstat hkp hpend hat
  rw [executeTask_unfold, hreach]
  rw [if_neg (by rw [hokc.1]; intro h; cases h)]
  refine ⟨?_, ?_⟩
  · rw [setTask_steps]
    exact hokc.2.2.1
  · intro j hj hjl
    rw [setTask_steps]
    exact hokc.2.2.2 j hj (by rw [hCBlen, hn]; exact hjl)

/-- C7 witness (the spec's own scenario): four steps, cancellation
commits while step 2 (index 1) is running; step 2 still completes and
steps 3 and 4 (indices 2 and 3) stay PENDING. -/
theorem c7_boundary_stop_witness :
    (executeTask [.ok true, .ok true, .ok true, .ok true] (some (.during 1))).steps[1]? =
      some ⟨.completed, true, true⟩ ∧
    (executeTask [.ok true, .ok true, .ok true, .ok true] (some (.during 1))).steps[2]? =
      some pendingRec ∧
    (executeTask [.ok true, .ok true, .ok true, .ok true] (some (.during 1))).steps[3]? =
      some pendingRec := by
  have h := c7_boundary_stop [.ok true] true [.ok true, .ok true] (some (.during 1))
    (by decide) (by decide) (by decide)
  exact ⟨h.1, h.2 2 (by decide) (by decide), h.2 3 (by decide) (by decide)⟩

/-! ### Claim C10 -/

/-- C10: the executor discards the handler's returned result.  First
conjunct: whenever step `k = oks.length` is reached (earlier handlers
returned normally, no cancellation at or before them) and its handler
returns a result — with either success flag `b`, in particular
`success = false` — the step is marked COMPLETED with a completion
timestamp.  Second conjunct: when every handler returns a result (any
mix of success flags) and no cancellation occurs, the task ends RESOLVED
and every step COMPLETED, so a handler-internal failure reported through
the result object never yields Step FAILED or Task FAILED. -/
theorem c10_result_discarded :
    (∀ (oks : List HandlerOutcome) (b : Bool) (tail : List HandlerOutcome)
      (cancel : Option CancelPoint),
      (∀ o ∈ oks, o.isOk = true) →
      (∀ j, j < oks.length → cancel ≠ some (.before j) ∧ cancel ≠ some (.during j)) →
      (executeTask (oks ++ .ok b :: tail) cancel).steps[oks.length]? =
        some ⟨.completed, true, true⟩) ∧
    (∀ (outcomes : List HandlerOutcome),
      (∀ o ∈ outcomes, o.isOk = true) →
      (executeTask outcomes none).taskStatus = .resolved ∧
      (∀ j, j < outcomes.length →
        (executeTask outcomes none).steps[j]? = some ⟨.completed, true, true⟩)) := by
  constructor
  · intro oks b tail cancel hok hcan
    have hreach := loop_reach cancel oks (.ok b :: tail) 0
      (readyState (oks ++ .ok b :: tail).length) hok
      (by intro j hj; simpa using hcan j hj)
      (readyState_taskStatus _)
    simp only [Nat.zero_add] at hreach
    have hn : oks.length < (oks ++ .ok b :: tail).length := by
      simp [List.length_append]
    have hkp : (completeBlock (readyState (oks ++ .ok b :: tail).length) 0 oks.length).steps[oks.length]? =
        some pendingRec := by
      rw [completeBlock_getElem?_out _ _ _ _ (Or.inr (by omega)), readyState_getElem?, if_pos hn]
    have hsettle := stepLoop_ok_settles cancel b tail oks.length
      (completeBlock (readyState (oks ++ .ok b :: tail).length) 0 oks.length) hkp
    rw [executeTask_unfold, hreach]
    split <;> rw [setTask_steps] <;> exact hsettle
  · intro outcomes hok
    have hreach := loop_reach none outcomes [] 0 (readyState outcomes.length) hok
      (by intro j hj; constructor <;> intro h <;> cases h)
      (readyState_taskStatus _)
    simp only [Nat.zero_add, List.append_nil] at hreach
    have hloop : stepLoop none outcomes 0 (readyState outcomes.length) =
        (completeBlock (readyState outcomes.length) 0 outcomes.length, false) := by
      rw [hreach]; rfl
    rw [executeTask_unfold, hloop]
    rw [if_neg (by intro h; cases h)]
    constructor
    · rw [setTask_taskStatus]
    · intro j hj
      rw [setTask_steps]
      exact completeBlock_getElem?_in outcomes.length _ 0 j (by omega) (by omega)
        (by rw [readyState_len]; exact hj)

/-- C10 witness: a single handler that returns `success = false`
(a caught, handler-internal failure): the step is COMPLETED and the
task RESOLVED. -/
theorem c10_result_discarded_witness :
    (executeTask [.ok false] none).taskStatus = .resolved ∧
    (executeTask [.ok false] none).steps[0]? = some ⟨.completed, true, true⟩ := by
  have h := c10_result_discarded.2 [.ok false] (by decide)
  exact ⟨h.1, h.2 0 (by decide)⟩

/-! ### Claim C3 -/

theorem pushCur_length (acc : List PlanStep) (cur : Option PlanStep) :
    (pushCur acc cur).length = acc.length + (if cur.isSome then 1 else 0) := by
  cases cur <;> simp [pushCur]

theorem parseLines_length : ∀ (ls : List String) (acc : List PlanStep) (cur : Option PlanStep),
    (parseLines ls acc cur).length =
      acc.length + (if cur.isSome then 1 else 0) +
        (ls.filter (fun l => (stepLineMatch l).isSome)).length := by
  intro ls
  induction ls with
  | nil =>
    intro acc cur
    simp [parseLines, pushCur_length]
  | cons l ls' ih =>
    intro acc cur
    cases hm : stepLineMatch l with
    | some g =>
      simp only [parseLines, hm]
      rw [ih, pushCur_length, List.filter_cons]
      simp [hm]
      omega
    | none =>
      cases cur with
      | none =>
        simp only [parseLines, hm]
        rw [ih, List.filter_cons]
        simp [hm]
      | some c =>
        simp only [parseLines, hm]
        split <;> rw [ih] <;> rw [List.filter_cons] <;> simp [hm]

theorem storePlanStepsFrom_numbers : ∀ (ps : List PlanStep) (i : Nat),
    (storePlanStepsFrom i ps).map (fun st => st.stepNumber) = consecutiveFrom (i + 1) ps.length := by
  intro ps
  induction ps with
  | nil => intro i; rfl
  | cons p ps' ih =>
    intro i
    simp only [storePlanStepsFrom, List.map_cons, List.length_cons, consecutiveFrom, ih]

/-- C3 counterexample: the claim says `createPlan` always returns a
non-empty plan, falling back to a single-step plan when the
collaborator's response has no parseable numbered step.  The parser has
no such fallback: an empty response and a prose-only response both yield
the empty plan (planner.ts:66-147 simply returns the accumulated list). -/
theorem c3_empty_plan_counterexample :
    createPlan "" = [] ∧
    createPlan "The plan is:\ngather data\nthen summarize" = [] := by
  constructor <;> decide

/-- C3 as amended: `createPlan` returns exactly one step per response
line matching the numbered-step pattern — in particular the empty plan,
not a one-step fallback, when no line matches — and `storePlanSteps`
numbers whatever plan it receives contiguously 1..N. -/
theorem c3_parse_count_and_numbering (response : String) :
    (createPlan response).length = numberedLineCount response ∧
    (storePlanSteps (createPlan response)).map (fun st => st.stepNumber) =
      consecutiveFrom 1 (createPlan response).length := by
  constructor
  · unfold createPlan parsePlanFromLLMResponse numberedLineCount
    rw [parseLines_length]
    simp
  · exact storePlanStepsFrom_numbers _ 0

/-! ### Claim C5 -/

theorem memOfGetElem : ∀ (l : List α) (i : Nat) (a : α), l[i]? = some a → a ∈ l := by
  intro l
  induction l with
  | nil => intro i a h; simp at h
  | cons x t ih =>
    intro i a h
    cases i with
    | zero =>
      simp at h
      simp [h]
    | succ k =>
      simp at h
      exact List.mem_cons_of_mem _ (ih k a h)

theorem resolveFrom_length : ∀ (acts : List JObj) (n : Nat),
    (resolveFrom n acts).length = acts.length := by
  intro acts
  induction acts with
  | nil => intro n; rfl
  | cons a rest ih => intro n; simp [resolveFrom, ih]

theorem resolveFrom_getElem? : ∀ (acts : List JObj) (n m : Nat),
    (resolveFrom n acts)[m]? = (acts[m]?).map (fun a => resolveObjAt (n + m) a) := by
  intro acts
  induction acts with
  | nil => intro n m; simp [resolveFrom]
  | cons a rest ih =>
    intro n m
    cases m with
    | zero => simp [resolveFrom]
    | succ k =>
      simp only [resolveFrom, List.getElem?_cons_succ, ih (n+1) k]
      have harith : n + 1 + k = n + (k + 1) := by omega
      rw [harith]

/-- C5: the dependency resolver is a pure, total linear pass.  For every
raw action list (no Reference values yet): the output has the same
length; the action at index 0 is untouched; every Reference in the
output at action index `i` has `resultFrom = i - 1` (so strictly smaller
than `i`); and at each index the rewrite acts fieldwise — a string field
containing the property-form sentinel becomes `{resultFrom: i-1,
property}`, a string field equal to the whole-result sentinel becomes
`{resultFrom: i-1}`, and every other field (malformed sentinels
included) is passed through as the same literal.  The pass performs no
execution and cannot fail: `resolveActionDependencies` is a total
function. -/
theorem c5_resolver_backward_refs (acts : List JObj)
    (hraw : ∀ a ∈ acts, refFree a = true) :
    (resolveActionDependencies acts).length = acts.length ∧
    (resolveActionDependencies acts)[0]? = acts[0]? ∧
    (∀ i a', (resolveActionDependencies acts)[i]? = some a' →
      ∀ k j p, (k, PValue.ref j p) ∈ a' → j + 1 = i) ∧
    (∀ i a a', acts[i]? = some a → (resolveActionDependencies acts)[i]? = some a' →
      (∀ k s, (k, PValue.str s) ∈ a → findPropSentinelS s = none → s ≠ sentinelWhole →
        (k, PValue.str s) ∈ a') ∧
      (∀ k v, (k, v) ∈ a → isStringParam v = false → (k, v) ∈ a') ∧
      (1 ≤ i → ∀ k s p, (k, PValue.str s) ∈ a → findPropSentinelS s = some p →
        (k, PValue.ref (i - 1) (some p)) ∈ a') ∧
      (1 ≤ i → ∀ k s, (k, PValue.str s) ∈ a → findPropSentinelS s = none → s = sentinelWhole →
        (k, PValue.ref (i - 1) none) ∈ a')) := by
  refine ⟨resolveFrom_length acts 0, ?_, ?_, ?_⟩
  · rw [resolveActionDependencies, resolveFrom_getElem? acts 0 0]
    cases h : acts[0]? with
    | none => rfl
    | some a => simp [resolveObjAt]
  · intro i a' ha' k j p hmem
    rw [resolveActionDependencies, resolveFrom_getElem? acts 0 i] at ha'
    cases h : acts[i]? with
    | none => rw [h] at ha'; cases ha'
    | some a =>
      rw [h] at ha'
      simp only [Option.map_some'] at ha'
      have ha2 : resolveObjAt (0 + i) a = a' := Option.some.inj ha'
      have hfree : refFree a = true := hraw a (memOfGetElem acts i a h)
      have hnoref : ∀ k₀ j₀ p₀, ¬ ((k₀, PValue.ref j₀ p₀) ∈ a) := by
        intro k₀ j₀ p₀ hin
        have := (List.all_eq_true.mp hfree) _ hin
        simp at this
      by_cases hi : (0 + i) = 0
      · have hi0 : i = 0 := by omega
        rw [← ha2] at hmem
        rw [resolveObjAt, if_pos hi] at hmem
        exact absurd hmem (hnoref k j p)
      · rw [← ha2] at hmem
        rw [resolveObjAt, if_neg hi] at hmem
        rcases List.mem_map.mp hmem with ⟨⟨k₀, v₀⟩, hin, heq⟩
        have hk : k₀ = k := congrArg Prod.fst heq
        have hv : resolveParamValue (0 + i) v₀ = PValue.ref j p := congrArg Prod.snd heq
        cases v₀ with
        | str s =>
          rw [resolveParamValue] at hv
          cases hf : findPropSentinelS s with
          | some p₀ =>
            rw [hf] at hv
            simp at hv
            omega
          | none =>
            rw [hf] at hv
            simp only at hv
            split at hv
            · simp at hv
              omega
            · cases hv
        | strList xs => cases hv
        | undef => cases hv
        | ref j₀ p₀ => exact absurd hin (hnoref k₀ j₀ p₀)
  · intro i a a' ha ha'
    rw [resolveActionDependencies, resolveFrom_getElem? acts 0 i, ha] at ha'
    simp only [Option.map_some'] at ha'
    have ha2 : resolveObjAt (0 + i) a = a' := Option.some.inj ha'
    by_cases hi : (0 + i) = 0
    · have hi0 : i = 0 := by omega
      rw [resolveObjAt, if_pos hi] at ha2
      subst ha2
      exact ⟨fun k s hin _ _ => hin, fun k v hin _ => hin,
        fun h1 => absurd hi0 (by omega), fun h1 => absurd hi0 (by omega)⟩
    · rw [resolveObjAt, if_neg hi] at ha2
      subst ha2
      have hfix : (0 + i) - 1 = i - 1 := by omega
      refine ⟨?_, ?_, ?_, ?_⟩
      · intro k s hin hf hne
        have := List.mem_map_of_mem (fun kv => (kv.1, resolveParamValue (0 + i) kv.2)) hin
        simpa [resolveParamValue, hf, hne] using this
      · intro k v hin hns
        have := List.mem_map_of_mem (fun kv => (kv.1, resolveParamValue (0 + i) kv.2)) hin
        cases v with
        | str s => simp [isStringParam] at hns
        | strList xs => simpa [resolveParamValue] using this
        | undef => simpa [resolveParamValue] using this
        | ref j₀ p₀ => simpa [resolveParamValue] using this
      · intro _ k s p hin hf
        have := List.mem_map_of_mem (fun kv => (kv.1, resolveParamValue (0 + i) kv.2)) hin
        simpa [resolveParamValue, hf, hfix] using this
      · intro _ k s hin hf hs
        have := List.mem_map_of_mem (fun kv => (kv.1, resolveParamValue (0 + i) kv.2)) hin
        simpa [resolveParamValue, hf, hs, hfix] using this

/-- C5 witness: on the generate/execute pair with the property-form
sentinel, the resolver keeps the length and rewrites the second action's
`code` field to the Reference `{resultFrom: 0, property: "code"}`. -/
theorem c5_resolver_backward_refs_witness :
    (resolveActionDependencies demoRawActs).length = 2 ∧
    ("code", PValue.ref 0 (some "code")) ∈ ((resolveActionDependencies demoRawActs)[1]?.getD []) := by
  have h := c5_resolver_backward_refs demoRawActs (by decide)
  refine ⟨by rw [h.1]; rfl, ?_⟩
  have h4 := h.2.2.2 1 (demoRawActs[1]?.getD [])
    ((resolveActionDependencies demoRawActs)[1]?.getD []) (by rfl) (by rfl)
  exact h4.2.2.1 (by decide) "code" sentinelPropCode "code" (by decide) (by rfl)

/-! ### Claim C6 -/

theorem actionOutput_shift (a : JObj) (rest : List JObj) (i0 : Nat)
    (tool : Nat → Except String PValue) (m : Nat) :
    actionOutput (a :: rest) i0 tool (m + 1) = actionOutput rest (i0 + 1) tool m := by
  simp only [actionOutput, List.getElem?_cons_succ]
  have harith : i0 + (m + 1) = (i0 + 1) + m := by omega
  rw [harith]

theorem actionFailIdx_shift (a : JObj) (rest : List JObj) (i0 : Nat)
    (tool : Nat → Except String PValue) (m : Nat) :
    actionFailIdx (a :: rest) i0 tool (m + 1) = actionFailIdx rest (i0 + 1) tool m := by
  simp only [actionFailIdx, List.getElem?_cons_succ]
  have harith : i0 + (m + 1) = (i0 + 1) + m := by omega
  rw [harith]

theorem runActions_usages_getElem? : ∀ (acts : List JObj) (i0 : Nat)
    (tool : Nat → Except String PValue) (m : Nat),
    (runActions acts i0 tool).usages[m]? =
      (acts[m]?).map (fun a => (a, true,
        (invocationOf a).isSome &&
          (match tool (i0 + m) with | .ok _ => true | .error _ => false))) := by
  intro acts
  induction acts with
  | nil => intro i0 tool m; simp [runActions]
  | cons a rest ih =>
    intro i0 tool m
    cases m with
    | zero =>
      cases hinv : invocationOf a with
      | none => simp [runActions, hinv]
      | some oa =>
        obtain ⟨op, args⟩ := oa
        cases htool : tool i0 with
        | ok v => simp [runActions, hinv, htool]
        | error e => simp [runActions, hinv, htool]
    | succ k =>
      have harith : i0 + (k + 1) = (i0 + 1) + k := by omega
      cases hinv : invocationOf a with
      | none =>
        simp only [runActions, hinv, List.getElem?_cons_succ, ih rest.length.succ.pred]
        rw [ih (i0 + 1) tool k, harith]
      | some oa =>
        obtain ⟨op, args⟩ := oa
        cases htool : tool i0 with
        | ok v =>
          simp only [runActions, hinv, htool, List.getElem?_cons_succ]
          rw [ih (i0 + 1) tool k, harith]
        | error e =>
          simp only [runActions, hinv, htool, List.getElem?_cons_succ]
          rw [ih (i0 + 1) tool k, harith]

theorem runActions_results : ∀ (acts : List JObj) (i0 : Nat)
    (tool : Nat → Except String PValue),
    (runActions acts i0 tool).results =
      (List.range acts.length).filterMap (actionOutput acts i0 tool) := by
  intro acts
  induction acts with
  | nil => intro i0 tool; rfl
  | cons a rest ih =>
    intro i0 tool
    have hr : (List.range (a :: rest).length).filterMap (actionOutput (a :: rest) i0 tool) =
        (match actionOutput (a :: rest) i0 tool 0 with
          | some v => v :: (List.range rest.length).filterMap (actionOutput rest (i0 + 1) tool)
          | none => (List.range rest.length).filterMap (actionOutput rest (i0 + 1) tool)) := by
      rw [List.length_cons, List.range_succ_eq_map, List.filterMap_cons, List.filterMap_map]
      have hcomp : (actionOutput (a :: rest) i0 tool) ∘ Nat.succ = actionOutput rest (i0 + 1) tool := by
        funext m
        exact actionOutput_shift a rest i0 tool m
      rw [hcomp]
      cases actionOutput (a :: rest) i0 tool 0 <;> rfl
    rw [hr]
    cases hinv : invocationOf a with
    | none =>
      simp only [runActions, hinv, actionOutput, List.getElem?_cons_zero, Option.some.injEq]
      simp [hinv, ih]
    | some oa =>
      obtain ⟨op, args⟩ := oa
      cases htool : tool i0 with
      | ok v =>
        simp only [runActions, hinv, htool]
        simp only [actionOutput, List.getElem?_cons_zero]
        simp [hinv, Nat.add_zero, htool, ih]
      | error e =>
        simp only [runActions, hinv, htool]
        simp only [actionOutput, List.getElem?_cons_zero]
        simp [hinv, Nat.add_zero, htool, ih]

theorem runActions_warns : ∀ (acts : List JObj) (i0 : Nat)
    (tool : Nat → Except String PValue),
    (runActions acts i0 tool).warns =
      (List.range acts.length).filterMap (actionFailIdx acts i0 tool) := by
  intro acts
  induction acts with
  | nil => intro i0 tool; rfl
  | cons a rest ih =>
    intro i0 tool
    have hr : (List.range (a :: rest).length).filterMap (actionFailIdx (a :: rest) i0 tool) =
        (match actionFailIdx (a :: rest) i0 tool 0 with
          | some v => v :: (List.range rest.length).filterMap (actionFailIdx rest (i0 + 1) tool)
          | none => (List.range rest.length).filterMap (actionFailIdx rest (i0 + 1) tool)) := by
      rw [List.length_cons, List.range_succ_eq_map, List.filterMap_cons, List.filterMap_map]
      have hcomp : (actionFailIdx (a :: rest) i0 tool) ∘ Nat.succ = actionFailIdx rest (i0 + 1) tool := by
        funext m
        exact actionFailIdx_shift a rest i0 tool m
      rw [hcomp]
      cases actionFailIdx (a :: rest) i0 tool 0 <;> rfl
    rw [hr]
    cases hinv : invocationOf a with
    | none =>
      simp only [runActions, hinv, actionFailIdx, List.getElem?_cons_zero]
      simp [hinv, ih]
    | some oa =>
      obtain ⟨op, args⟩ := oa
      cases htool : tool i0 with
      | ok v =>
        simp only [runActions, hinv, htool]
        simp only [actionFailIdx, List.getElem?_cons_zero]
        simp [hinv, Nat.add_zero, htool, ih]
      | error e =>
        simp only [runActions, hinv, htool]
        simp only [actionFailIdx, List.getElem?_cons_zero]
        simp [hinv, Nat.add_zero, htool, ih]

theorem runActions_usages_length (acts : List JObj) (tool : Nat → Except String PValue)
    (i0 : Nat) : (runActions acts i0 tool).usages.length = acts.length := by
  induction acts generalizing i0 with
  | nil => rfl
  | cons a rest ih =>
    cases hinv : invocationOf a with
    | none => simp [runActions, hinv, ih]
    | some oa =>
      obtain ⟨op, args⟩ := oa
      cases htool : tool i0 with
      | ok v => simp [runActions, hinv, htool, ih]
      | error e => simp [runActions, hinv, htool, ih]

/-- C6: action-level fault isolation in the per-step action loop.  For
every action list and tool behaviour: one ToolUsage record is opened and
closed per action — every action is attempted, so the list of records
has the full length no matter which actions fail; the record of action
`m` carries the serialized action and a success flag that is true
exactly when its operation was invoked and succeeded; the result list
contains exactly the successful actions' outputs (a failing action's
output is excluded); and the warning log records exactly the failed
actions' indices. -/
theorem c6_action_fault_isolation (acts : List JObj) (tool : Nat → Except String PValue) :
    (runActions acts 0 tool).usages.length = acts.length ∧
    (∀ m, m < acts.length →
      (runActions acts 0 tool).usages[m]? =
        (acts[m]?).map (fun a => (a, true, actionSuccess acts 0 tool m))) ∧
    (runActions acts 0 tool).results =
      (List.range acts.length).filterMap (actionOutput acts 0 tool) ∧
    (runActions acts 0 tool).warns =
      (List.range acts.length).filterMap (actionFailIdx acts 0 tool) := by
  refine ⟨runActions_usages_length acts tool 0, ?_, runActions_results acts 0 tool,
    runActions_warns acts 0 tool⟩
  intro m hm
  rw [runActions_usages_getElem? acts 0 tool m]
  cases h : acts[m]? with
  | none => rfl
  | some a => simp [actionSuccess, h]

/-- C6 witness: the resolved generate/execute pair, with the tool
failing on action 0 and succeeding on action 1: both actions get closed
usage records, action 1 is still attempted and succeeds, and the result
list holds exactly action 1's output. -/
theorem c6_action_fault_isolation_witness :
    (runActions (resolveActionDependencies demoRawActs) 0 demoTool).usages.length = 2 ∧
    actionSuccess (resolveActionDependencies demoRawActs) 0 demoTool 0 = false ∧
    actionSuccess (resolveActionDependencies demoRawActs) 0 demoTool 1 = true ∧
    (runActions (resolveActionDependencies demoRawActs) 0 demoTool).results = [PValue.str "output"] := by
  have h := c6_action_fault_isolation (resolveActionDependencies demoRawActs) demoTool
  refine ⟨by rw [h.1]; rfl, by decide, by decide, ?_⟩
  rw [h.2.2.1]
  rfl

/-! ### Claim C4 -/

/-- C4 (code bug): on the spec's own scenario — a step whose
decomposition is `[generate_code, execute_code]` with the execute
action's `code` parameter resolved to the Reference
`{resultFrom: 0, property: "code"}` — the runner invokes the execute
operation with the raw Reference as its `code` argument: no substitution
of action 0's computed result happens anywhere (and no
DependencyResolutionError exists in the source), even though the
generate action succeeded and its output was available. -/
theorem c4_raw_reference_passed_to_tool :
    jlookup ((c4Acts)[1]?.getD []) "code" = some (.ref 0 (some "code")) ∧
    (runActions c4Acts 0 c4Tool).calls[1]? =
      some ("executeCode", [some (.ref 0 (some "code")), some (.str "python"), some (.strList [])]) := by
  constructor <;> rfl

/-! ### Claim C9 -/

theorem resolve_ne_nil (l : List JObj) (h : l ≠ []) : resolveActionDependencies l ≠ [] := by
  intro h0
  have hlen := congrArg List.length h0
  rw [resolveActionDependencies, resolveFrom_length] at hlen
  exact h (List.length_eq_zero.mp hlen)

theorem codeAnalyze_ne_nil (desc : String) (now : Nat) : codeAnalyzeActions desc now ≠ [] := by
  have hdef : codeAnalyzeActions desc now =
      resolveActionDependencies
        (if (codeActionsRaw desc now).isEmpty then
          codeDefaultPair desc (detectLanguage (jsToLower desc))
        else codeActionsRaw desc now) := rfl
  rw [hdef]
  apply resolve_ne_nil
  split
  · intro hc; cases hc
  · rename_i he
    intro hc
    rw [hc] at he
    exact he rfl

theorem finalFallback_ne_nil (acts : List JObj) (topic : Option String) :
    (if acts.isEmpty then
      (match topic with
       | some t => [[("type", PValue.str "search"), ("query", PValue.str t)]]
       | none => [[("type", PValue.str "screenshot")]])
    else acts) ≠ [] := by
  split
  · split <;> intro hc <;> cases hc
  · rename_i he
    intro hc
    rw [hc] at he
    exact he rfl

theorem webAnalyze_ne_nil (desc : String) : webAnalyzeActions desc ≠ [] :=
  finalFallback_ne_nil _ _

theorem generalAnalyze_empty_iff (response desc : String) :
    generalAnalyzeActions response desc = [] ↔
      (jsParseArray response = some [] ∨
       (jsParseArray response = none ∧
        ∃ sub, extractBracketSpan response = some sub ∧ jsParseArray sub = some [])) := by
  cases hp : jsParseArray response with
  | some xs =>
    have hL : generalAnalyzeActions response desc = xs := by
      simp only [generalAnalyzeActions, hp]
    constructor
    · intro h
      rw [hL] at h
      exact Or.inl (by rw [h])
    · rintro (h | ⟨h, _⟩)
      · rw [hL]
        exact Option.some.inj h
      · cases h
  | none =>
    cases hs : extractBracketSpan response with
    | some sub =>
      cases hp2 : jsParseArray sub with
      | some ys =>
        have hL : generalAnalyzeActions response desc = ys := by
          simp only [generalAnalyzeActions, hp, hs, hp2]
        constructor
        · intro h
          rw [hL] at h
          exact Or.inr ⟨rfl, sub, rfl, by rw [hp2, h]⟩
        · rintro (h | ⟨_, sub', hsub', hparse⟩)
          · cases h
          · have hss : sub' = sub := (Option.some.inj hsub').symm
            rw [hss, hp2] at hparse
            rw [hL]
            exact Option.some.inj hparse
      | none =>
        have hL : generalAnalyzeActions response desc = [generalDefaultAction desc] := by
          simp only [generalAnalyzeActions, hp, hs, hp2]
        constructor
        · intro h
          rw [hL] at h
          cases h
        · rintro (h | ⟨_, sub', hsub', hparse⟩)
          · cases h
          · have hss : sub' = sub := (Option.some.inj hsub').symm
            rw [hss, hp2] at hparse
            cases hparse
    | none =>
      have hL : generalAnalyzeActions response desc = [generalDefaultAction desc] := by
        simp only [generalAnalyzeActions, hp, hs]
      constructor
      · intro h
        rw [hL] at h
        cases h
      · rintro (h | ⟨_, sub', hsub', _⟩)
        · cases h
        · cases hsub'

/-- C9 counterexample: the claim says every handler's decomposition is
non-empty — for the general-purpose handler, that a default action is
emitted when no parsed collaborator suggestion applies.  But when the
collaborator's response parses as the empty JSON array, the source
returns it as-is (part_003:202-205) and the action list handed to the
runner is empty. -/
theorem c9_empty_actions_counterexample :
    generalAnalyzeActions "[]" "summarize the data" = [] := by
  rfl

/-- C9 as amended: the code-execution and web-browsing decomposers do
always produce at least one action (their empty-list defaults fire);
the general-purpose decomposer produces its default action only when
neither parse attempt yields a JSON array — its output is empty exactly
when the response (or its extracted bracket span, when the response
itself fails to parse) parses as the empty array. -/
theorem c9_decomposer_nonempty :
    (∀ (desc : String) (now : Nat), codeAnalyzeActions desc now ≠ []) ∧
    (∀ desc : String, webAnalyzeActions desc ≠ []) ∧
    (∀ response desc : String,
      generalAnalyzeActions response desc = [] ↔
        (jsParseArray response = some [] ∨
         (jsParseArray response = none ∧
          ∃ sub, extractBracketSpan response = some sub ∧ jsParseArray sub = some []))) :=
  ⟨codeAnalyze_ne_nil, webAnalyze_ne_nil, generalAnalyze_empty_iff⟩

/-- C9 witness: concrete instances of each conjunct — a code step and a
web step with non-empty decompositions, and the empty-array response on
which the general-purpose decomposition is empty. -/
theorem c9_decomposer_nonempty_witness :
    codeAnalyzeActions "organize the files" 0 ≠ [] ∧
    webAnalyzeActions "go online" ≠ [] ∧
    generalAnalyzeActions "[]" "d" = [] := by
  refine ⟨c9_decomposer_nonempty.1 "organize the files" 0,
    c9_decomposer_nonempty.2.1 "go online",
    (c9_decomposer_nonempty.2.2 "[]" "d").mpr (Or.inl rfl)⟩

/-! ### Claim C8 -/

/-- C8 counterexample: the claim says the handler the Executor uses is
selected first-match-wins over the registered handlers' `canHandleStep`
predicates.  The Executor in fact selects via its own keyword chain
`analyzeStepForAgentSelection` (executor.ts:106, 134-150) and never
calls the registry's `selectAgentForStep`.  The two mechanisms disagree:
for the step description "visit", `canHandleStep`-based first-match
selection picks the WebBrowsingAgent (keyword `visit`), while the
Executor's chain finds none of its keywords and uses the
general-purpose agent. -/
theorem c8_selection_counterexample :
    analyzeStepForAgentSelection "visit" = .generalPurpose ∧
    selectAgentForStep "visit" = .webBrowsing := by
  constructor <;> rfl

/-- C8 as amended: the registry's `selectAgentForStep` does implement
first-match-wins over `canHandleStep` in registration order (Web, Data,
Document, Code) with the fallback excluded from the pass and used
exactly when no other handler matches — a matched non-fallback result
always satisfies its own `canHandleStep`, and the fallback is returned
iff no specialized predicate holds.  But the Executor's own selection,
`analyzeStepForAgentSelection`, is an independent keyword chain whose
fallback fires iff none of its nine keywords occur; the two mechanisms
are distinct (they disagree on "visit", see the counterexample). -/
theorem c8_selection_mechanisms (desc : String) :
    (selectAgentForStep desc = .generalPurpose ↔
      (webCanHandleStep desc = false ∧ dataCanHandleStep desc = false ∧
       documentCanHandleStep desc = false ∧ codeCanHandleStep desc = false)) ∧
    (webCanHandleStep desc = true → selectAgentForStep desc = .webBrowsing) ∧
    (selectAgentForStep desc = .dataAnalysis →
      dataCanHandleStep desc = true ∧ webCanHandleStep desc = false) ∧
    (selectAgentForStep desc = .documentProcessing →
      documentCanHandleStep desc = true ∧ webCanHandleStep desc = false ∧
      dataCanHandleStep desc = false) ∧
    (selectAgentForStep desc = .codeExecution →
      codeCanHandleStep desc = true ∧ webCanHandleStep desc = false ∧
      dataCanHandleStep desc = false ∧ documentCanHandleStep desc = false) ∧
    (analyzeStepForAgentSelection desc = .generalPurpose ↔
      (strContains (jsToLower desc) "data" = false ∧
       strContains (jsToLower desc) "analyze" = false ∧
       strContains (jsToLower desc) "web" = false ∧
       strContains (jsToLower desc) "browse" = false ∧
       strContains (jsToLower desc) "search" = false ∧
       strContains (jsToLower desc) "file" = false ∧
       strContains (jsToLower desc) "document" = false ∧
       strContains (jsToLower desc) "code" = false ∧
       strContains (jsToLower desc) "program" = false)) := by
  refine ⟨?_, ?_, ?_, ?_, ?_, ?_⟩
  · unfold selectAgentForStep
    split_ifs with h1 h2 h3 h4 <;> simp_all
  · intro h
    unfold selectAgentForStep
    rw [if_pos h]
  · unfold selectAgentForStep
    split_ifs with h1 h2 h3 h4 <;> simp_all
  · unfold selectAgentForStep
    split_ifs with h1 h2 h3 h4 <;> simp_all
  · unfold selectAgentForStep
    split_ifs with h1 h2 h3 h4 <;> simp_all
  · simp only [analyzeStepForAgentSelection]
    split_ifs with h1 h2 h3 h4 <;> simp_all [Bool.or_eq_true] <;> intros <;> simp_all

/-- C8 witness: a description the web agent claims is selected by the
registry mechanism as WebBrowsingAgent, and a description with none of
the Executor's keywords falls through to the general-purpose agent. -/
theorem c8_selection_mechanisms_witness :
    selectAgentForStep "browse the web" = .webBrowsing ∧
    analyzeStepForAgentSelection "quux" = .generalPurpose := by
  exact ⟨(c8_selection_mechanisms "browse the web").2.1 (by decide),
    ((c8_selection_mechanisms "quux").2.2.2.2.2).mpr (by decide)⟩

end Manus
